import Mathlib

/-! Workflow engine activities: resource reconciliation, reference aliasing, actions and the
streaming actors client.

A shallow embedding of `wfe/resource.go`, `wfe/reference.go`, `wfe/action.go` and of
`InvokeAction` in `lang/rpc/client/actor.go`.

* The dynamic value library (`eval.Value` / `px.Value`) is embedded as the inductive type
  `Value`; a Go `nil` interface value is `none : Option Value`.
* A panic is a thrown `Issue`; side effects (handler invocations, calls of the engine hosted
  `State` service, identity store operations) are recorded, in order, in the `trace` of the
  `World` that `Run` threads through.
* A stream is the list of messages that `Recv` yields before the end of the stream; what
  `InvokeAction` does on it is returned as a list of `StreamEvent`s next to its outcome.
-/

namespace Wfe

/-! ## The value model -/

/-- The dynamic values exchanged between the engine, its handlers and its activities. -/
inductive Value where
  | undef
  | bool (b : Bool)
  | int (i : Int)
  | str (s : String)
  | array (xs : List Value)
  | hash (entries : List (Value × Value))
  | object (typeName : String) (attrs : List (String × Value))
  deriving Repr, Inhabited

mutual
/-- Whether two values are the same term, position by position; it decides equality. -/
def Value.beq : Value → Value → Bool
  | .undef, .undef => true
  | .bool a, .bool b => a == b
  | .int a, .int b => a == b
  | .str a, .str b => a == b
  | .array xs, .array ys => Value.beqList xs ys
  | .hash xs, .hash ys => Value.beqEntries xs ys
  | .object t xs, .object u ys => t == u && Value.beqAttrs xs ys
  | _, _ => false
termination_by structural x => x
/-- Whether two lists of values are the same. -/
def Value.beqList : List Value → List Value → Bool
  | [], [] => true
  | x :: xs, y :: ys => Value.beq x y && Value.beqList xs ys
  | _, _ => false
termination_by structural x => x
/-- Whether two hash entries are the same. -/
def Value.beqEntry : Value × Value → Value × Value → Bool
  | (k, x), (l, y) => Value.beq k l && Value.beq x y
termination_by structural x => x
/-- Whether two lists of hash entries are the same. -/
def Value.beqEntries : List (Value × Value) → List (Value × Value) → Bool
  | [], [] => true
  | e :: xs, f :: ys => Value.beqEntry e f && Value.beqEntries xs ys
  | _, _ => false
termination_by structural x => x
/-- Whether two attribute bindings are the same. -/
def Value.beqAttr : String × Value → String × Value → Bool
  | (k, x), (l, y) => k == l && Value.beq x y
termination_by structural x => x
/-- Whether two lists of attribute bindings are the same. -/
def Value.beqAttrs : List (String × Value) → List (String × Value) → Bool
  | [], [] => true
  | e :: xs, f :: ys => Value.beqAttr e f && Value.beqAttrs xs ys
  | _, _ => false
termination_by structural x => x
end

mutual
theorem Value.eq_of_beq : ∀ a b : Value, Value.beq a b = true → a = b
  | .undef, b => by cases b <;> simp [Value.beq]
  | .bool a, b => by cases b <;> simp [Value.beq]
  | .int a, b => by cases b <;> simp [Value.beq]
  | .str a, b => by cases b <;> simp [Value.beq]
  | .array xs, b => by
      cases b <;> simp [Value.beq]
      exact Value.eq_of_beqList xs _
  | .hash xs, b => by
      cases b <;> simp [Value.beq]
      exact Value.eq_of_beqEntries xs _
  | .object t xs, b => by
      cases b <;> simp [Value.beq]
      exact fun ht h => ⟨ht, Value.eq_of_beqAttrs xs _ h⟩
termination_by structural x => x
theorem Value.eq_of_beqList : ∀ xs ys : List Value, Value.beqList xs ys = true → xs = ys
  | [], ys => by cases ys <;> simp [Value.beqList]
  | x :: xs, ys => by
      cases ys <;> simp [Value.beqList]
      exact fun h1 h2 => ⟨Value.eq_of_beq x _ h1, Value.eq_of_beqList xs _ h2⟩
termination_by structural x => x
theorem Value.eq_of_beqEntry : ∀ e f : Value × Value, Value.beqEntry e f = true → e = f
  | (k, x), (l, y) => by
      simp [Value.beqEntry]
      exact fun h1 h2 => ⟨Value.eq_of_beq k _ h1, Value.eq_of_beq x _ h2⟩
termination_by structural x => x
theorem Value.eq_of_beqEntries :
    ∀ xs ys : List (Value × Value), Value.beqEntries xs ys = true → xs = ys
  | [], ys => by cases ys <;> simp [Value.beqEntries]
  | x :: xs, ys => by
      cases ys <;> simp [Value.beqEntries]
      exact fun h1 h2 => ⟨Value.eq_of_beqEntry x _ h1, Value.eq_of_beqEntries xs _ h2⟩
termination_by structural x => x
theorem Value.eq_of_beqAttr : ∀ e f : String × Value, Value.beqAttr e f = true → e = f
  | (k, x), (l, y) => by
      simp [Value.beqAttr]
      exact fun h1 h2 => ⟨h1, Value.eq_of_beq x _ h2⟩
termination_by structural x => x
theorem Value.eq_of_beqAttrs :
    ∀ xs ys : List (String × Value), Value.beqAttrs xs ys = true → xs = ys
  | [], ys => by cases ys <;> simp [Value.beqAttrs]
  | x :: xs, ys => by
      cases ys <;> simp [Value.beqAttrs]
      exact fun h1 h2 => ⟨Value.eq_of_beqAttr x _ h1, Value.eq_of_beqAttrs xs _ h2⟩
termination_by structural x => x
end

mutual
theorem Value.beq_refl : ∀ a : Value, Value.beq a a = true
  | .undef => by simp [Value.beq]
  | .bool a => by simp [Value.beq]
  | .int a => by simp [Value.beq]
  | .str a => by simp [Value.beq]
  | .array xs => by simp [Value.beq, Value.beqList_refl xs]
  | .hash xs => by simp [Value.beq, Value.beqEntries_refl xs]
  | .object t xs => by simp [Value.beq, Value.beqAttrs_refl xs]
termination_by structural x => x
theorem Value.beqList_refl : ∀ xs : List Value, Value.beqList xs xs = true
  | [] => by simp [Value.beqList]
  | x :: xs => by simp [Value.beqList, Value.beq_refl x, Value.beqList_refl xs]
termination_by structural x => x
theorem Value.beqEntry_refl : ∀ e : Value × Value, Value.beqEntry e e = true
  | (k, x) => by simp [Value.beqEntry, Value.beq_refl k, Value.beq_refl x]
termination_by structural x => x
theorem Value.beqEntries_refl : ∀ xs : List (Value × Value), Value.beqEntries xs xs = true
  | [] => by simp [Value.beqEntries]
  | x :: xs => by
      simp [Value.beqEntries, Value.beqEntry_refl x, Value.beqEntries_refl xs]
termination_by structural x => x
theorem Value.beqAttr_refl : ∀ e : String × Value, Value.beqAttr e e = true
  | (k, x) => by simp [Value.beqAttr, Value.beq_refl x]
termination_by structural x => x
theorem Value.beqAttrs_refl : ∀ xs : List (String × Value), Value.beqAttrs xs xs = true
  | [] => by simp [Value.beqAttrs]
  | x :: xs => by
      simp [Value.beqAttrs, Value.beqAttr_refl x, Value.beqAttrs_refl xs]
termination_by structural x => x
end

theorem Value.beq_iff (a b : Value) : Value.beq a b = true ↔ a = b :=
  ⟨Value.eq_of_beq a b, fun h => h ▸ Value.beq_refl a⟩

instance : DecidableEq Value := fun a b => decidable_of_iff _ (Value.beq_iff a b)

mutual
/-- The method `Equals(other, nil)` of a value, the value library's semantic equality: arrays
are compared element by element, in order; hashes have the same number of entries and each
entry of the one has an `Equals` entry in the other, whatever the order of the entries;
objects likewise have the same type name and, attribute by attribute name, `Equals` values. -/
def Value.equals : Value → Value → Bool
  | .undef, b =>
    (match b with
     | .undef => true
     | _ => false)
  | .bool x, b =>
    (match b with
     | .bool y => x == y
     | _ => false)
  | .int x, b =>
    (match b with
     | .int y => x == y
     | _ => false)
  | .str x, b =>
    (match b with
     | .str y => x == y
     | _ => false)
  | .array xs, b =>
    (match b with
     | .array ys => Value.equalsList xs ys
     | _ => false)
  | .hash xs, b =>
    (match b with
     | .hash ys => xs.length == ys.length && Value.entriesIn xs ys
     | _ => false)
  | .object t xs, b =>
    (match b with
     | .object u ys => t == u && xs.length == ys.length && Value.attrsIn xs ys
     | _ => false)
termination_by structural x => x
/-- Element-wise `Equals` of two arrays. -/
def Value.equalsList : List Value → List Value → Bool
  | [], ys => ys.isEmpty
  | x :: xs, ys =>
    (match ys with
     | y :: rest => Value.equals x y && Value.equalsList xs rest
     | [] => false)
termination_by structural x => x
/-- `Equals` of two hash entries: of their keys and of their values. -/
def Value.equalsEntry : Value × Value → Value × Value → Bool
  | (k, x), f => Value.equals k f.1 && Value.equals x f.2
termination_by structural x => x
/-- Whether each of the entries has an `Equals` entry among those of the other hash. -/
def Value.entriesIn : List (Value × Value) → List (Value × Value) → Bool
  | [], _ => true
  | e :: xs, ys => ys.any (Value.equalsEntry e) && Value.entriesIn xs ys
termination_by structural x => x
/-- `Equals` of two attribute bindings: the same name and `Equals` values. -/
def Value.equalsAttr : String × Value → String × Value → Bool
  | (k, x), f => k == f.1 && Value.equals x f.2
termination_by structural x => x
/-- Whether each of the bindings has an `Equals` binding among those of the other object. -/
def Value.attrsIn : List (String × Value) → List (String × Value) → Bool
  | [], _ => true
  | e :: xs, ys => ys.any (Value.equalsAttr e) && Value.attrsIn xs ys
termination_by structural x => x
end

mutual
/-- The rendering of a value inside an array, a hash or an object: as `String()` renders it,
but with a string between single quotes. -/
def Value.Quoted : Value → String
  | .undef => "undef"
  | .bool b => if b then "true" else "false"
  | .int i => toString i
  | .str s => "\x27" ++ s ++ "\x27"
  | .array xs => "[" ++ Value.joinList xs ++ "]"
  | .hash es => "\x7b" ++ Value.joinEntries es ++ "\x7d"
  | .object t as => t ++ "(" ++ Value.joinAttrs as ++ ")"
termination_by structural x => x
/-- Comma separated rendering of array elements. -/
def Value.joinList : List Value → String
  | [] => ""
  | [x] => Value.Quoted x
  | x :: y :: xs => Value.Quoted x ++ ", " ++ Value.joinList (y :: xs)
termination_by structural x => x
/-- Rendering of one hash entry. -/
def Value.joinEntry : Value × Value → String
  | (k, v) => Value.Quoted k ++ " => " ++ Value.Quoted v
termination_by structural x => x
/-- Comma separated rendering of hash entries. -/
def Value.joinEntries : List (Value × Value) → String
  | [] => ""
  | [x] => Value.joinEntry x
  | x :: y :: xs => Value.joinEntry x ++ ", " ++ Value.joinEntries (y :: xs)
termination_by structural x => x
/-- Rendering of one attribute binding. -/
def Value.joinAttr : String × Value → String
  | (k, v) => "\x27" ++ k ++ "\x27 => " ++ Value.Quoted v
termination_by structural x => x
/-- Comma separated rendering of attribute bindings. -/
def Value.joinAttrs : List (String × Value) → String
  | [] => ""
  | [x] => Value.joinAttr x
  | x :: y :: xs => Value.joinAttr x ++ ", " ++ Value.joinAttrs (y :: xs)
termination_by structural x => x
end

/-- The method `String()` of a value. A string value yields its own characters; an array, a
hash and an object are rendered with the strings inside them between single quotes. -/
def Value.ToString : Value → String
  | .str s => s
  | v => v.Quoted

/-- The constant `eval.EMPTY_MAP`. -/
def EMPTY_MAP : Value := .hash []

/-- The call `types.WrapString(s)`. -/
def WrapString (s : String) : Value := .str s

/-- The call `types.WrapHashEntry(k, v)`. -/
def WrapHashEntry (k v : Value) : Value × Value := (k, v)

/-- The call `types.WrapHashEntry2(n, v)`: an entry keyed by the string `n`. -/
def WrapHashEntry2 (n : String) (v : Value) : Value × Value := (.str n, v)

/-- The call `types.WrapHash(entries)`. -/
def WrapHash (entries : List (Value × Value)) : Value := .hash entries

/-- The method `Get(name)` of a typed object: the attribute's value and whether it exists. -/
def Value.Get : Value → String → Option Value
  | .object _ attrs, name => attrs.lookup name
  | _, _ => none

/-! ## Panics -/

/-- The failures a run can end in (Go panics). -/
inductive Issue where
  | missingIdentity (id : String)
  | illegalOperation
  | noSuchAttribute (name : String)
  | typeMismatch
  | typeAssertion
  | attributeNotFound (name : String)
  | nilDereference
  | handlerFailure (message : String)
  | badResponseShape (rendering : String)
  deriving DecidableEq, Repr

/-! ## Types, parameters, definitions -/

/-- An attribute of an object type. -/
structure Attribute where
  name : String
  deriving DecidableEq, Repr

/-- The `annotation.Resource` attached to a resource type. -/
structure ResourceAnno where
  ProvidedAttributes : List String
  deriving DecidableEq, Repr

/-- An `eval.ObjectType`: its name, its attributes in declaration order, the names of its
functions, and the resource entry of its `Annotations()` when there is one. -/
structure ObjectType where
  name : String
  attributes : List Attribute
  functions : List String
  anno : Option ResourceAnno
  deriving DecidableEq, Repr

/-- The method `Member(name)` of an object type: an attribute or a function of that name. -/
def ObjectType.Member (t : ObjectType) (name : String) : Bool :=
  t.attributes.any (fun a => a.name == name) || t.functions.any (fun f => f == name)

/-- The method `Get(instance)` of an attribute: the value the instance holds for it. -/
def Attribute.Get (a : Attribute) (o : Value) : Except Issue Value :=
  match o.Get a.name with
  | some v => .ok v
  | none => .error (.attributeNotFound a.name)

/-- Whether `v` is an instance of the object type `t`: an object of that type holding a value
for each attribute. -/
def ObjectType.IsInstance (t : ObjectType) (v : Value) : Bool :=
  match v with
  | .object tn attrs => tn == t.name && t.attributes.all (fun a => (attrs.lookup a.name).isSome)
  | _ => false

/-- The call `eval.AssertInstance(label, t, v)`. -/
def AssertInstance (t : ObjectType) (v : Value) : Except Issue Value :=
  if t.IsInstance v then .ok v else .error .typeMismatch

/-- The Go type assertion `v.(eval.PuppetObject)`. -/
def asPuppetObject : Value → Except Issue Value
  | .object t attrs => .ok (.object t attrs)
  | _ => .error .typeAssertion

/-- The Go type assertion `v.(eval.List)`. -/
def asList : Value → Except Issue (List Value)
  | .array xs => .ok xs
  | _ => .error .typeAssertion

/-- The method `At(i)` of a list: the element at `i`, and `undef` past the end. -/
def At (xs : List Value) (i : Nat) : Value :=
  match xs.get? i with
  | some v => v
  | none => Value.undef

/-- An `eval.Parameter`: its name and its value when it has one. -/
structure Parameter where
  name : String
  value : Option Value
  deriving DecidableEq

/-- The method `HasValue()` of a parameter. -/
def Parameter.HasValue (p : Parameter) : Bool := p.value.isSome

/-- The operation carried by the activity context. -/
inductive Operation where
  | Read
  | Delete
  | Upsert
  | Other (n : Nat)
  deriving DecidableEq, Repr

/-- The handler definition found by `GetHandler`: the name of its identifier and its
`interface` property. -/
structure Definition where
  name : String
  interface : ObjectType
  deriving DecidableEq, Repr

/-- A guard condition (`wf.Condition`). -/
inductive Condition where
  | Boolean (b : Bool)
  | Truthy (name : String)
  | Not (c : Condition)
  | And (cs : List Condition)
  | Or (cs : List Condition)

/-- An activity's base fields: its name, the identifier the base activity reports, its
declared input and output, and its guard (`none` for a nil condition). -/
structure Activity where
  name : String
  identifier : String
  input : List Parameter
  output : List Parameter
  when : Option Condition

/-- The struct `resource`: an activity with its resource type, the name of its handler
and the declared `external_id` (`none` when the definition has none). -/
structure resource extends Activity where
  typ : ObjectType
  handler : String
  extId : Option Value

/-! ## `net/url` query encoding, used by `Identifier` -/

/-- The UTF-8 bytes of a character. -/
def utf8Bytes (c : Char) : List Nat :=
  let n := c.toNat
  if n < 128 then [n]
  else if n < 2048 then [192 + n / 64, 128 + n % 64]
  else if n < 65536 then [224 + n / 4096, 128 + (n / 64) % 64, 128 + n % 64]
  else [240 + n / 262144, 128 + (n / 4096) % 64, 128 + (n / 64) % 64, 128 + n % 64]

/-- An upper case hexadecimal digit. -/
def hexDigit (n : Nat) : Char := "0123456789ABCDEF".toList.getD n '0'

/-- Whether a byte is left as it is in a query component: letters, digits, `-`, `_`, `.`, `~`. -/
def unreserved (b : Nat) : Bool :=
  (48 ≤ b && b ≤ 57) || (65 ≤ b && b ≤ 90) || (97 ≤ b && b ≤ 122) ||
    b == 45 || b == 95 || b == 46 || b == 126

/-- One byte of `url.QueryEscape`. -/
def escapeByte (b : Nat) : List Char :=
  if b == 32 then ['+']
  else if unreserved b then [Char.ofNat b]
  else ['%', hexDigit (b / 16), hexDigit (b % 16)]

/-- The function `url.QueryEscape`. -/
def QueryEscape (s : String) : String :=
  String.mk ((s.toList.flatMap utf8Bytes).flatMap escapeByte)

/-- The method `Identifier()` of a resource: the base identifier followed by the encoded query
`external_id=..&resource_type=..` (`url.Values.Encode` sorts by key), the first part only
when an external id is declared. -/
def resource.Identifier (r : resource) : String :=
  r.identifier ++ "?" ++
    (match r.extId with
     | some e => "external_id=" ++ QueryEscape e.ToString ++ "&"
     | none => "") ++
    "resource_type=" ++ QueryEscape r.typ.name

/-! ## Effects -/

/-- What a run does to the outside, in order. -/
inductive Event where
  | invoke (hn method : String) (args : List (Option Value))
  | state (name : String) (input : Value)
  | getExternal (id : String) (requireExists : Bool)
  | associate (id extId : String)
  | removeExternal (extId : String)
  deriving DecidableEq

/-- The world a run acts on: the records of the identity store (activity identifier, external
id), the state of the remote services, and the effects performed so far. -/
structure World (σ : Type) where
  identity : List (String × String)
  services : σ
  trace : List Event

/-- An effectful computation that may panic; the world is kept when it does. -/
def Eff (σ α : Type) : Type := World σ → Except Issue α × World σ

/-- Sequencing: a panic ends the computation. -/
def Eff.bind {σ α β : Type} (m : Eff σ α) (f : α → Eff σ β) : Eff σ β := fun w =>
  match m w with
  | (.ok a, w1) => f a w1
  | (.error e, w1) => (.error e, w1)

instance {σ : Type} : Monad (Eff σ) where
  pure a := fun w => (.ok a, w)
  bind := Eff.bind

/-- A pure step that may panic. -/
def Eff.lift {σ α : Type} (x : Except Issue α) : Eff σ α := fun w => (x, w)

/-- What `Run` finds in its context: the current operation, the handler definition that
`GetHandler` resolves, and the services it talks to. `invoke` is `handler.Invoke(c, hn, method,
args...)` and `state` is the `State(c, name, input)` call of the activity's own service; both
act on the state `σ` of the remote side and may fail. -/
structure Context (σ : Type) where
  operation : Operation
  handlerDef : Definition
  invoke : σ → String → String → List (Option Value) → Except Issue Value × σ
  state : σ → String → Value → Except Issue Value × σ

/-- The call `handler.Invoke(c, hn, method, args...)`. -/
def Invoke {σ : Type} (c : Context σ) (hn method : String) (args : List (Option Value)) :
    Eff σ Value := fun w =>
  let out := c.invoke w.services hn method args
  (out.1, { w with services := out.2, trace := w.trace ++ [Event.invoke hn method args] })

/-- The call `r.GetService(c).State(c, name, input)`. -/
def State {σ : Type} (c : Context σ) (name : String) (input : Value) : Eff σ Value := fun w =>
  let out := c.state w.services name input
  (out.1, { w with services := out.2, trace := w.trace ++ [Event.state name input] })

/-- Modelled from the spec: the identity store's `getExternal(activityId, requireExists)`, whose
code is not among the sources. It yields the external id recorded for the activity identifier;
with no record it fails with `MissingIdentity` when `requireExists` is set and reports
`found = false` (here `none`) silently otherwise. -/
def getExternal {σ : Type} (id : String) (requireExists : Bool) : Eff σ (Option String) :=
  fun w =>
    let w1 := { w with trace := w.trace ++ [Event.getExternal id requireExists] }
    match w.identity.lookup id with
    | some s => (.ok (some s), w1)
    | none => if requireExists then (.error (.missingIdentity id), w1) else (.ok none, w1)

/-- Modelled from the spec: the identity store's `associate(activityId, extId)`, whose code is
not among the sources. It records the pair; the store is a bijection, so a record of the same
activity identifier or of the same external id gives way. -/
def associate {σ : Type} (id extId : String) : Eff σ Unit := fun w =>
  (.ok (), { w with
    identity := (id, extId) :: w.identity.filter (fun p => p.1 != id && p.2 != extId),
    trace := w.trace ++ [Event.associate id extId] })

/-- Modelled from the spec: the identity store's `removeExternal(extId)`, whose code is not
among the sources. It drops the records of that external id. -/
def removeExternal {σ : Type} (extId : String) : Eff σ Unit := fun w =>
  (.ok (), { w with
    identity := w.identity.filter (fun p => p.2 != extId),
    trace := w.trace ++ [Event.removeExternal extId] })

/-! ## `resource.go` -/

/-- The closure `isProvided` of `Run`: constantly false unless the resource type carries a
resource entry with a non-empty list of provided attributes, then membership in that list. -/
def isProvided (typ : ObjectType) : String → Bool :=
  match typ.anno with
  | some ra =>
    let pva := ra.ProvidedAttributes
    if pva.length > 0 then fun name => pva.any (fun pv => pv == name) else fun _ => false
  | none => fun _ => false

/-- The loop of `Run` that sets `updateNeeded`: attributes in order, provided ones skipped,
stopping at the first attribute whose desired and current values are not `Equals`. -/
def updateNeededLoop (typ : ObjectType) (desiredState currentState : Value) :
    List Attribute → Except Issue Bool
  | [] => .ok false
  | a :: rest =>
    if isProvided typ a.name then updateNeededLoop typ desiredState currentState rest
    else
      match a.Get desiredState with
      | .error e => .error e
      | .ok dv =>
        match a.Get currentState with
        | .error e => .error e
        | .ok av =>
          if !dv.equals av then .ok true
          else updateNeededLoop typ desiredState currentState rest

/-- The value of `updateNeeded` after the loop over `r.typ.AttributesInfo().Attributes()`. -/
def updateNeeded (typ : ObjectType) (desiredState currentState : Value) : Except Issue Bool :=
  updateNeededLoop typ desiredState currentState typ.attributes

/-- The array branch of `getValue`: one entry per listed name, keyed by the listed element. -/
def subEntries (o : Value) : List Value → Except Issue (List (Value × Value))
  | [] => .ok []
  | e :: es =>
    let a := e.ToString
    match o.Get a with
    | some v =>
      match subEntries o es with
      | .ok rest => .ok (WrapHashEntry e v :: rest)
      | .error err => .error err
    | none => .error (.noSuchAttribute a)

/-- The method `getValue(p, o)` of a resource. -/
def resource.getValue (_r : resource) (p : Parameter) (o : Value) :
    Except Issue (Value × Value) :=
  let n := p.name
  let lookup := fun (a : String) =>
    match o.Get a with
    | some v => Except.ok (WrapHashEntry2 n v)
    | none => Except.error (Issue.noSuchAttribute a)
  match p.value with
  | some (.array xs) =>
    match subEntries o xs with
    | .ok entries => .ok (WrapHashEntry2 n (WrapHash entries))
    | .error err => .error err
  | some (.str s) => lookup s
  | _ => lookup n

/-- The loop of the second switch of `Run`: one entry per output parameter. -/
def resource.entries (r : resource) (result : Value) :
    List Parameter → Except Issue (List (Value × Value))
  | [] => .ok []
  | o :: os =>
    match r.getValue o result with
    | .error err => .error err
    | .ok e =>
      match resource.entries r result os with
      | .ok rest => .ok (e :: rest)
      | .error err => .error err

/-- The second switch of `Run` under `Read` and `Upsert`: the projection onto `Output()`. -/
def resource.project (r : resource) (result : Value) : Except Issue Value :=
  match r.entries result r.output with
  | .ok entries => .ok (WrapHash entries)
  | .error err => .error err

/-- The `create` step shared by both places of `Run` that create: invoke `create`, take the
object and the new external id from the returned list, associate. -/
def resource.create {σ : Type} (r : resource) (c : Context σ) (hn : String)
    (desiredState : Value) : Eff σ Value := do
  let rt ← Invoke c hn "create" [some desiredState]
  let rl ← Eff.lift (asList rt)
  let result ← Eff.lift (AssertInstance r.typ (At rl 0) >>= asPuppetObject)
  let extId := At rl 1
  associate r.Identifier extId.ToString
  pure result

/-- The method `Run(c, input)` of a resource. -/
def resource.Run {σ : Type} (r : resource) (c : Context σ) (input : Value) : Eff σ Value := do
  let op := c.operation
  let handlerDef := c.handlerDef
  let crd := handlerDef.interface
  let explicitExtId := r.extId.isSome
  let extId ← (if !explicitExtId then do
      -- external id must exist in order to do a read or delete
      match ← getExternal r.Identifier (op == .Read || op == .Delete) with
      | some s => pure (some (WrapString s))
      | none => pure r.extId
    else pure r.extId)
  let hn := handlerDef.name
  match op with
  | .Read =>
    match extId with
    | none => pure EMPTY_MAP
    | some _ => do
      let v ← Invoke c hn "read" [extId]
      let result ← Eff.lift (AssertInstance r.typ v >>= asPuppetObject)
      Eff.lift (r.project result)
  | .Upsert =>
    if explicitExtId then do
      -- only possible action here is a read
      let v ← Invoke c hn "read" [extId]
      let result ← Eff.lift (asPuppetObject v)
      Eff.lift (r.project result)
    else do
      let desiredState ← State c r.name input
      match extId with
      | none => do
        -- nothing exists yet, create a new instance
        let result ← r.create c hn desiredState
        Eff.lift (r.project result)
      | some e => do
        -- read current state and check if an update is needed
        let v ← Invoke c hn "read" [extId]
        let currentState ← Eff.lift (AssertInstance r.typ v >>= asPuppetObject)
        let needed ← Eff.lift (updateNeeded r.typ desiredState currentState)
        if needed then
          if crd.Member "update" then do
            let u ← Invoke c hn "update" [extId, some desiredState]
            let result ← Eff.lift (AssertInstance r.typ u >>= asPuppetObject)
            Eff.lift (r.project result)
          else do
            let _ ← Invoke c hn "delete" [extId]
            removeExternal e.ToString
            let result ← r.create c hn desiredState
            Eff.lift (r.project result)
        else
          Eff.lift (r.project currentState)
  | .Delete =>
    if !explicitExtId then do
      let _ ← Invoke c hn "delete" [extId]
      match extId with
      | some e => do
        removeExternal e.ToString
        pure EMPTY_MAP
      | none => Eff.lift (.error .nilDereference)
    else pure EMPTY_MAP
  | .Other _ => Eff.lift (.error .illegalOperation)

/-- The names listed by the resource type's `providedAttributes`: those of its resource entry,
none when the type has no such entry. -/
def providedAttributes (typ : ObjectType) : List String :=
  match typ.anno with
  | some ra => ra.ProvidedAttributes
  | none => []

/-! ## A concrete handler and resource, for the scenarios -/

/-- The resource type `Host{name, ip, id(provided)}`. -/
def hostType : ObjectType :=
  { name := "Host", attributes := [⟨"name"⟩, ⟨"ip"⟩, ⟨"id"⟩], functions := [],
    anno := some ⟨["id"]⟩ }

/-- A handler interface with `create`, `read` and `delete` but no `update`. -/
def crdInterface : ObjectType :=
  { name := "HostHandler", attributes := [], functions := ["create", "read", "delete"],
    anno := none }

/-- A handler interface that also declares `update`. -/
def crudInterface : ObjectType :=
  { name := "HostHandler", attributes := [],
    functions := ["create", "read", "update", "delete"], anno := none }

/-- The state of the sample handler: how many hosts it has created, and the hosts it holds
by external id. -/
abbrev HostStore : Type := Nat × List (String × Value)

/-- Set an attribute of an object. -/
def setAttr (o : Value) (k : String) (v : Value) : Value :=
  match o with
  | .object t attrs => .object t (attrs.filter (fun p => p.1 != k) ++ [(k, v)])
  | other => other

/-- A sample handler: `create` stores the desired object under a fresh id `H<n>` that it also
writes to the attribute `id`, `read` returns the stored object, `update` replaces it keeping
the id, `delete` drops it. -/
def hostInvoke (s : HostStore) (_hn method : String) (args : List (Option Value)) :
    Except Issue Value × HostStore :=
  match method, args with
  | "create", [some d] =>
    let id := "H" ++ toString (s.1 + 1)
    let obj := setAttr d "id" (.str id)
    (.ok (.array [obj, .str id]), (s.1 + 1, (id, obj) :: s.2))
  | "read", [some (.str id)] =>
    match s.2.lookup id with
    | some obj => (.ok obj, s)
    | none => (.error (.handlerFailure "not found"), s)
  | "update", [some (.str id), some d] =>
    let obj := setAttr d "id" (.str id)
    (.ok obj, (s.1, (id, obj) :: s.2.filter (fun p => p.1 != id)))
  | "delete", [some (.str id)] => (.ok .undef, (s.1, s.2.filter (fun p => p.1 != id)))
  | _, _ => (.error (.handlerFailure "bad call"), s)

/-- A sample `State` service: the desired `Host` holds the input's entries as attributes. -/
def hostState (s : HostStore) (_name : String) (input : Value) :
    Except Issue Value × HostStore :=
  match input with
  | .hash entries => (.ok (.object "Host" (entries.map (fun e => (e.1.ToString, e.2)))), s)
  | _ => (.error (.handlerFailure "bad input"), s)

/-- The sample context for an operation and a handler interface. -/
def hostContext (op : Operation) (crd : ObjectType) : Context HostStore :=
  { operation := op, handlerDef := { name := "HostHandler", interface := crd },
    invoke := hostInvoke, state := hostState }

/-- The resource `host` of type `Host`, without a declared external id. -/
def host : resource :=
  { name := "host", identifier := "lyra://host", input := [⟨"name", none⟩, ⟨"ip", none⟩],
    output := [⟨"id", none⟩], when := none, typ := hostType, handler := "Host", extId := none }

/-- The resource `host` declared with `external_id: "E0"`. -/
def externalHost : resource := { host with extId := some (.str "E0") }

/-- The desired input `{name: "a", ip: ip}`. -/
def hostInput (ip : String) : Value :=
  .hash [(.str "name", .str "a"), (.str "ip", .str ip)]

/-- An empty world: no identity record, nothing created, nothing done. -/
def emptyWorld : World HostStore := { identity := [], services := (0, []), trace := [] }

/-- A `Host` object. -/
def hostObject (attrs : List (String × Value)) : Value := .object "Host" attrs

/-- A resource type `Box` with the single attribute `cfg`. -/
def boxType : ObjectType :=
  { name := "Box", attributes := [⟨"cfg"⟩], functions := [], anno := none }

/-- A `Box` whose `cfg` is the hash of the given entries. -/
def boxWith (cfg : List (Value × Value)) : Value := .object "Box" [("cfg", .hash cfg)]

/-- The desired `Host{name: "a", ip}` that the sample `State` service builds. -/
def hostDesired (ip : String) : Value := hostObject [("name", .str "a"), ("ip", .str ip)]

/-- The `Host` the sample handler holds after `create`: the desired one with its `id`. -/
def hostStored (ip id : String) : Value :=
  hostObject [("name", .str "a"), ("ip", .str ip), ("id", .str id)]

/-- The world after the first Upsert of `host` with ip `1.1.1.1` on the sample handler. -/
def createdWorld : World HostStore :=
  { identity := [("lyra://host?resource_type=Host", "H1")],
    services := (1, [("H1", hostStored "1.1.1.1" "H1")]), trace := [] }

/-- Qualify the attribute `name` of an object with the prefix `prod-`. -/
def qualifyName (d : Value) : Value :=
  match d.Get "name" with
  | some (.str n) => setAttr d "name" (.str ("prod-" ++ n))
  | _ => d

/-- A handler that differs from the sample one in that `create` stores, and returns, the host
under its qualified name `prod-<name>`. -/
def qualifyingInvoke (s : HostStore) (hn method : String) (args : List (Option Value)) :
    Except Issue Value × HostStore :=
  match method, args with
  | "create", [some d] => hostInvoke s hn "create" [some (qualifyName d)]
  | _, _ => hostInvoke s hn method args

/-- The Upsert context of the qualifying handler. -/
def qualifyingContext : Context HostStore :=
  { operation := .Upsert, handlerDef := { name := "HostHandler", interface := crdInterface },
    invoke := qualifyingInvoke, state := hostState }

/-- The `Host` that the qualifying handler holds after `create`. -/
def qualifiedStored (ip id : String) : Value :=
  hostObject [("ip", .str ip), ("name", .str "prod-a"), ("id", .str id)]

/-! ## `reference.go` -/

/-- An ordered map (`px.OrderedMap`): its entries in order. -/
abbrev OrderedMap : Type := List (Value × Value)

/-- The method `MapEntries(mapper)` of an ordered map. -/
def MapEntries (m : OrderedMap) (mapper : Value × Value → Value × Value) : OrderedMap :=
  m.map mapper

/-- What a reference uses of the activity it wraps (`api.Activity`): its input, output and
guard, and its `Run`, which may panic. -/
structure InnerActivity where
  Input : List Parameter
  Output : List Parameter
  When : Option Condition
  Run : OrderedMap → Except Issue OrderedMap

/-- The struct `reference`: an activity and the activity `ra` it refers to. -/
structure reference extends Activity where
  ra : InnerActivity

/-- The method `Input()` of a reference. -/
def reference.Input (r : reference) : List Parameter :=
  if r.input.length == 0 then r.ra.Input else r.input

/-- The method `Output()` of a reference. -/
def reference.Output (r : reference) : List Parameter :=
  if r.output.length == 0 then r.ra.Output else r.output

/-- The loop in the mapper of `mapInput`: the first parameter whose name is the key's string
decides; when it has a string value, the entry is keyed by that value instead. -/
def mapInputLoop (kn : String) (entry : Value × Value) : List Parameter → Value × Value
  | [] => entry
  | p :: ps =>
    if p.name == kn then
      match p.value with
      | some (.str a) => WrapHashEntry (.str a) entry.2
      | _ => entry
    else mapInputLoop kn entry ps

/-- The method `mapInput(input)` of a reference. -/
def reference.mapInput (r : reference) (input : OrderedMap) : OrderedMap :=
  let ips := r.Input
  if ips.length == 0 then input
  else MapEntries input (fun entry => mapInputLoop entry.1.ToString entry ips)

/-- The loop in the mapper of `mapOutput`: the first parameter whose string value `Equals` the
key decides; the entry is then keyed by that parameter's name. -/
def mapOutputLoop (entry : Value × Value) : List Parameter → Value × Value
  | [] => entry
  | p :: ps =>
    match p.value with
    | some (.str a) =>
      if (Value.str a).equals entry.1 then WrapHashEntry2 p.name entry.2
      else mapOutputLoop entry ps
    | _ => mapOutputLoop entry ps

/-- The method `mapOutput(output)` of a reference. -/
def reference.mapOutput (r : reference) (output : OrderedMap) : OrderedMap :=
  let ops := r.Output
  if ops.length == 0 then output
  else MapEntries output (fun entry => mapOutputLoop entry ops)

/-- The method `Run(ctx, input)` of a reference. -/
def reference.Run (r : reference) (input : OrderedMap) : Except Issue OrderedMap :=
  match r.ra.Run (r.mapInput input) with
  | .ok output => .ok (r.mapOutput output)
  | .error err => .error err

/-- An inner activity that answers every input with `{token: "xyz"}`. -/
def inner : InnerActivity :=
  { Input := [⟨"user", none⟩], Output := [⟨"token", none⟩], When := none,
    Run := fun _ => .ok [(.str "token", .str "xyz")] }

/-- The reference of the scenario "reference alias": it wraps `inner` and declares
`input: [{name: "user", value: "u"}]` and `output: [{name: "token", value: "t"}]`. -/
def aliasReference : reference :=
  { name := "ref", identifier := "lyra://ref", input := [⟨"user", some (.str "u")⟩],
    output := [⟨"token", some (.str "t")⟩], when := none, ra := inner }

/-- The call `wf.And(conditions)`. -/
def And (conditions : List Condition) : Condition := Condition.And conditions

/-- The method `When()` of a reference. -/
def reference.When (r : reference) : Option Condition :=
  match r.when with
  | none => r.ra.When
  | some when =>
    match r.ra.When with
    | some inner => some (And [when, inner])
    | none => some when

/-- A reference seen as an `api.Activity`, as when another reference wraps it: each property
is the reference's own method. -/
def reference.asActivity (r : reference) : InnerActivity :=
  { Input := r.Input, Output := r.Output, When := r.When, Run := r.Run }

/-- An inner activity guarded by the condition `ready`. -/
def guardedInner : InnerActivity := { inner with When := some (.Truthy "ready") }

/-- A reference guarded by `enabled` that declares neither input nor output and wraps
`guardedInner`. -/
def guardedReference : reference :=
  { name := "guarded", identifier := "lyra://guarded", input := [], output := [],
    when := some (.Truthy "enabled"), ra := guardedInner }

/-- A reference without declarations of its own that wraps the reference `aliasReference`. -/
def outerReference : reference :=
  { name := "outer", identifier := "lyra://outer", input := [], output := [], when := none,
    ra := aliasReference.asActivity }

/-! ## `action.go` -/

/-- The struct `action`: an activity and the `interface` property of its definition, when it
has one. -/
structure action extends Activity where
  api : Option ObjectType

/-- The service of an action: `Invoke(ctx, name, method, args...)`, which may panic. -/
abbrev ServiceInvoke : Type := String → String → List Value → Except Issue Value

/-- One invocation of a service method. -/
structure ServiceCall where
  name : String
  method : String
  args : List Value
  deriving DecidableEq

/-- The Go type assertion `v.(px.OrderedMap)`. -/
def asOrderedMap : Value → Except Issue OrderedMap
  | .hash entries => .ok entries
  | _ => .error .typeAssertion

/-- The method `Run(ctx, input)` of an action, with the service invocations it makes: it
invokes `do` under the activity's name with the input, returns the result when that is an
ordered map and panics with the result's `String()` otherwise. -/
def action.Run (s : action) (service : ServiceInvoke) (input : OrderedMap) :
    List ServiceCall × Except Issue OrderedMap :=
  let calls := [ServiceCall.mk s.name "do" [.hash input]]
  match service s.name "do" [.hash input] with
  | .error e => (calls, .error e)
  | .ok result =>
    match asOrderedMap result with
    | .ok m => (calls, .ok m)
    | .error _ => (calls, .error (.badResponseShape result.ToString))

/-- An action `greet` that declares the single input parameter `user`. -/
def greet : action :=
  { name := "greet", identifier := "lyra://greet", input := [⟨"user", none⟩],
    output := [⟨"token", none⟩], when := none, api := none }

/-- A service whose `do` answers with the map it was given. -/
def echoService : ServiceInvoke := fun _ _ args =>
  match args with
  | [v] => .ok v
  | _ => .error (.handlerFailure "bad call")

/-- A service whose `do` answers with the string `done`. -/
def stringService : ServiceInvoke := fun _ _ _ => .ok (.str "done")

/-! ## `lang/rpc/client/actor.go` -/

/-- The message ids `shared.InvokeActionId`, `shared.GenesisResourceId` and
`shared.GenesisNoticeId`. Their values are constants of a package that is not among the
sources; as the cases of one Go `switch` they are pairwise distinct. -/
structure MessageIds where
  InvokeActionId : Nat
  GenesisResourceId : Nat
  GenesisNoticeId : Nat
  distinct : InvokeActionId ≠ GenesisResourceId ∧ InvokeActionId ≠ GenesisNoticeId ∧
    GenesisResourceId ≠ GenesisNoticeId

/-- A stream message `fsmpb.Message` with a payload of wire data `D`. -/
structure Message (D : Type) where
  Id : Nat
  Value : D
  deriving DecidableEq

/-- A Go `reflect.Value`, as far as its method `String()` tells values apart: an invalid
value, a string, or a value of another type, given by the name of that type. -/
inductive GoValue where
  | invalid
  | string (s : String)
  | other (typeName : String)
  deriving DecidableEq

/-- The method `String()` of a `reflect.Value`: the string itself for a string, and for a value
of another type `T` the text `<T Value>`. -/
def GoValue.ToString : GoValue → String
  | .invalid => "<invalid Value>"
  | .string s => s
  | .other typeName => "<" ++ typeName ++ " Value>"

/-- The data libraries that `InvokeAction` calls: `proto.FromPBData`, `proto.ToPBData`, and
`datapb.FromData`, which yields a `reflect.Value` or an error. -/
structure DataCodec (D : Type) where
  FromPBData : D → Value
  ToPBData : Value → D
  FromData : D → Except String GoValue

/-- The `api.Genesis` service passed to `InvokeAction`: what `Resource` answers. (`Notice`
only has an effect.) -/
structure Genesis where
  Resource : OrderedMap → Value

/-- The errors that `InvokeAction` returns. -/
inductive RpcError where
  | openFailed (message : String)
  | EOF
  | decode (message : String)
  | unexpectedId (id : Nat)
  deriving DecidableEq

/-- How a call of `InvokeAction` ends without a result: with a returned error or a panic. -/
inductive Failure where
  | returned (err : RpcError)
  | panicked (issue : Issue)
  deriving DecidableEq

/-- What `InvokeAction` does on the stream and to the genesis service, in order. A `send`
carries whether `Send` returned an error. -/
inductive StreamEvent (D : Type) where
  | send (m : Message D) (failed : Bool)
  | recv (m : Message D)
  | recvEOF
  | closeSend
  | resource (v : OrderedMap)
  | notice (s : String)
  deriving DecidableEq

/-- The other side of the actors client, as one call of `InvokeAction` meets it: whether
opening the stream fails, the messages that `Recv` yields before it reports the end of the
stream, and whether the `n`-th `Send` (counted from 0) returns an error. -/
structure ActorsClient (D : Type) where
  openError : Option String
  inbound : List (Message D)
  sendFails : Nat → Bool

/-- The `for` loop of `InvokeAction` on the messages still to come, `n` sends having been
made: the outcome and the events of the loop. -/
def recvLoop {D : Type} (ids : MessageIds) (codec : DataCodec D) (genesis : Genesis)
    (sendFails : Nat → Bool) : List (Message D) → Nat → Except Failure D × List (StreamEvent D)
  | [], _ =>
    -- even EOF is an error here
    (.error (.returned .EOF), [.recvEOF])
  | resp :: rest, n =>
    if resp.Id == ids.InvokeActionId then
      -- this is the response for the InvokeActivity call
      (.ok resp.Value, [.recv resp, .closeSend])
    else if resp.Id == ids.GenesisResourceId then
      -- message intended for the Genesis service
      match asOrderedMap (codec.FromPBData resp.Value) with
      | .error issue => (.error (.panicked issue), [.recv resp])
      | .ok v =>
        let d := codec.ToPBData (genesis.Resource v)
        let out := recvLoop ids codec genesis sendFails rest (n + 1)
        (out.1, [.recv resp, .resource v, .send ⟨resp.Id, d⟩ (sendFails n)] ++ out.2)
    else if resp.Id == ids.GenesisNoticeId then
      match codec.FromData resp.Value with
      | .error err => (.error (.returned (.decode err)), [.recv resp])
      | .ok v =>
        let out := recvLoop ids codec genesis sendFails rest n
        (out.1, [.recv resp, .notice v.ToString] ++ out.2)
    else
      (.error (.returned (.unexpectedId resp.Id)), [.recv resp])

/-- The method `InvokeAction(args, genesis)` of `GRPCActors`: the result or the failure, and
the events on the stream. -/
def InvokeAction {D : Type} (ids : MessageIds) (codec : DataCodec D) (client : ActorsClient D)
    (args : D) (genesis : Genesis) : Except Failure D × List (StreamEvent D) :=
  match client.openError with
  | some err => (.error (.returned (.openFailed err)), [])
  | none =>
    let out := recvLoop ids codec genesis client.sendFails client.inbound 1
    (out.1, .send ⟨ids.InvokeActionId, args⟩ (client.sendFails 0) :: out.2)

/-- Whether the loop can answer a callback message: a `GENESIS_RESOURCE` message whose value
is an ordered map, or a `GENESIS_NOTICE` message whose value can be decoded. -/
def answerable {D : Type} (ids : MessageIds) (codec : DataCodec D) (m : Message D) : Bool :=
  (m.Id == ids.GenesisResourceId &&
      (match codec.FromPBData m.Value with
       | .hash _ => true
       | _ => false)) ||
    (m.Id == ids.GenesisNoticeId &&
      (match codec.FromData m.Value with
       | .ok _ => true
       | .error _ => false))

/-- The events by which callbacks are handled one after the other, `n` sends having been
made: for a `GENESIS_RESOURCE` message its receipt, the call of `genesis.Resource` on its
value and one reply with the answer under the same id handed to `Send`, with the result of
that `Send`; for a `GENESIS_NOTICE` message its receipt and the call of `genesis.Notice`,
without a reply. -/
def callbackEvents {D : Type} (ids : MessageIds) (codec : DataCodec D) (genesis : Genesis)
    (sendFails : Nat → Bool) : List (Message D) → Nat → List (StreamEvent D)
  | [], _ => []
  | m :: ms, n =>
    if m.Id == ids.GenesisResourceId then
      match codec.FromPBData m.Value with
      | .hash v =>
        [.recv m, .resource v,
          .send ⟨m.Id, codec.ToPBData (genesis.Resource v)⟩ (sendFails n)] ++
          callbackEvents ids codec genesis sendFails ms (n + 1)
      | _ => []
    else
      match codec.FromData m.Value with
      | .ok v => [.recv m, .notice v.ToString] ++ callbackEvents ids codec genesis sendFails ms n
      | .error _ => []

/-- The messages that a run of events has read from the stream. -/
def received {D : Type} : List (StreamEvent D) → List (Message D)
  | [] => []
  | .recv m :: es => m :: received es
  | _ :: es => received es

/-- An event with the result of `Send` forgotten. -/
def StreamEvent.withoutSendResult {D : Type} : StreamEvent D → StreamEvent D
  | .send m _ => .send m false
  | e => e

/-- Sample message ids: `INVOKE_ACTION = 0`, `GENESIS_RESOURCE = 1`, `GENESIS_NOTICE = 2`. -/
def sampleIds : MessageIds :=
  { InvokeActionId := 0, GenesisResourceId := 1, GenesisNoticeId := 2,
    distinct := by decide }

/-- A sample codec on values as wire data: the conversions are the identity; decoding fails
on `undef`, yields a Go string for a string and a Go value of another type otherwise. -/
def sampleCodec : DataCodec Value :=
  { FromPBData := fun d => d, ToPBData := fun v => v,
    FromData := fun d =>
      match d with
      | .undef => .error "no data"
      | .str s => .ok (.string s)
      | .bool _ => .ok (.other "bool")
      | .int _ => .ok (.other "int64")
      | _ => .ok (.other "interface") }

/-- A sample genesis service: a resource resolves to its `type` with the suffix `-1`. -/
def sampleGenesis : Genesis :=
  { Resource := fun v =>
      match v.lookup (.str "type") with
      | some t => .hash [(.str "id", .str (t.ToString ++ "-1"))]
      | none => .undef }

/-- A plugin side that sends the given messages, on a stream that opens and whose sends
succeed. -/
def plugin (inbound : List (Message Value)) : ActorsClient Value :=
  { openError := none, inbound := inbound, sendFails := fun _ => false }

/-- The callback interleave of the scenario: a notice, a resource request, the final
response. -/
def interleave : List (Message Value) :=
  [⟨2, .str "starting"⟩, ⟨1, .hash [(.str "type", .str "Dep")]⟩,
   ⟨0, .hash [(.str "ok", .bool true)]⟩]

/-! ## The projection onto `Output()`, in the words of the specification -/

/-- The attributes of the result object that an output parameter names: the listed names when
its value is an array, the string when its value is a string, its own name otherwise. -/
def Parameter.attributeNames (p : Parameter) : List String :=
  match p.value with
  | some (.array xs) => xs.map Value.ToString
  | some (.str s) => [s]
  | _ => [p.name]

/-- The value that the specification gives the entry of an output parameter: a sub-map from
each listed name to the object's attribute of that name when the value is an array, the
attribute named by the string when the value is a string, the attribute named like the
parameter otherwise. -/
def Parameter.projected (p : Parameter) (o : Value) : Value :=
  match p.value with
  | some (.array xs) => .hash (xs.map (fun e => (e, (o.Get e.ToString).getD .undef)))
  | some (.str s) => (o.Get s).getD Value.undef
  | _ => (o.Get p.name).getD Value.undef

/-- A resource whose output uses each kind of parameter value: an array of names, a string,
and none. -/
def projectingHost : resource :=
  { host with
    output := [⟨"address", some (.array [.str "name", .str "ip"])⟩, ⟨"key", some (.str "id")⟩,
      ⟨"ip", none⟩] }

/-! ## Stepping through effects -/

theorem Eff.bind_apply {σ α β : Type} (m : Eff σ α) (f : α → Eff σ β) (w : World σ) :
    (m >>= f) w = match m w with
      | (.ok a, w1) => f a w1
      | (.error e, w1) => (.error e, w1) := rfl

theorem Eff.pure_apply {σ α : Type} (a : α) (w : World σ) :
    (pure a : Eff σ α) w = (.ok a, w) := rfl

theorem Eff.lift_apply {σ α : Type} (x : Except Issue α) (w : World σ) :
    (Eff.lift x : Eff σ α) w = (x, w) := rfl

/-- A pure step leaves the world as it is, whatever follows starts from it. -/
theorem Eff.lift_bind_apply {σ α β : Type} (x : Except Issue α) (f : α → Eff σ β)
    (w : World σ) :
    (Eff.lift x >>= f) w = match x with
      | .ok a => f a w
      | .error e => (.error e, w) := by
  cases x <;> rfl

/-! ## The comparison of desired and current state -/

theorem isProvided_iff (typ : ObjectType) (name : String) :
    isProvided typ name = true ↔ name ∈ providedAttributes typ := by
  unfold isProvided providedAttributes
  cases typ.anno with
  | none => simp
  | some ra =>
    by_cases hlen : ra.ProvidedAttributes.length > 0
    · simp only [hlen, if_true, List.any_eq_true, beq_iff_eq]
      constructor
      · rintro ⟨y, hy, rfl⟩
        exact hy
      · intro h
        exact ⟨name, h, rfl⟩
    · have hnil : ra.ProvidedAttributes = [] := by
        cases hp : ra.ProvidedAttributes with
        | nil => rfl
        | cons x xs => simp [hp] at hlen
      simp [hnil]

theorem isProvided_eq_false_iff (typ : ObjectType) (name : String) :
    isProvided typ name = false ↔ name ∉ providedAttributes typ := by
  rw [← isProvided_iff]
  cases isProvided typ name <;> simp

mutual
theorem Value.equals_refl : ∀ a : Value, Value.equals a a = true
  | .undef => by simp [Value.equals]
  | .bool _ => by simp [Value.equals]
  | .int _ => by simp [Value.equals]
  | .str _ => by simp [Value.equals]
  | .array xs => by simp [Value.equals, Value.equalsList_refl xs]
  | .hash xs => by
    simp [Value.equals, Value.entriesIn_of_subset xs xs (fun _ h => h)]
  | .object _ xs => by
    simp [Value.equals, Value.attrsIn_of_subset xs xs (fun _ h => h)]
termination_by structural x => x
theorem Value.equalsList_refl : ∀ xs : List Value, Value.equalsList xs xs = true
  | [] => by simp [Value.equalsList]
  | x :: xs => by simp [Value.equalsList, Value.equals_refl x, Value.equalsList_refl xs]
termination_by structural x => x
theorem Value.equalsEntry_refl : ∀ e : Value × Value, Value.equalsEntry e e = true
  | (k, x) => by simp [Value.equalsEntry, Value.equals_refl k, Value.equals_refl x]
termination_by structural x => x
theorem Value.entriesIn_of_subset :
    ∀ xs ys : List (Value × Value), (∀ e ∈ xs, e ∈ ys) → Value.entriesIn xs ys = true
  | [], _, _ => by simp [Value.entriesIn]
  | e :: xs, ys, h => by
    simp only [Value.entriesIn, Bool.and_eq_true, List.any_eq_true]
    exact ⟨⟨e, h e (List.mem_cons_self _ _), Value.equalsEntry_refl e⟩,
      Value.entriesIn_of_subset xs ys (fun x hx => h x (List.mem_cons_of_mem _ hx))⟩
termination_by structural x => x
theorem Value.equalsAttr_refl : ∀ e : String × Value, Value.equalsAttr e e = true
  | (k, x) => by simp [Value.equalsAttr, Value.equals_refl x]
termination_by structural x => x
theorem Value.attrsIn_of_subset :
    ∀ xs ys : List (String × Value), (∀ e ∈ xs, e ∈ ys) → Value.attrsIn xs ys = true
  | [], _, _ => by simp [Value.attrsIn]
  | e :: xs, ys, h => by
    simp only [Value.attrsIn, Bool.and_eq_true, List.any_eq_true]
    exact ⟨⟨e, h e (List.mem_cons_self _ _), Value.equalsAttr_refl e⟩,
      Value.attrsIn_of_subset xs ys (fun x hx => h x (List.mem_cons_of_mem _ hx))⟩
termination_by structural x => x
end

/-- A string `Equals` exactly the same string. -/
theorem Value.equals_str (a : String) (x : Value) :
    Value.equals (.str a) x = true ↔ x = .str a := by
  cases x <;> simp [Value.equals]
  exact eq_comm

/-- The loop over a list of attributes whose compared ones have a value in both states ends
with a verdict: true exactly when the desired and current values of a compared attribute are
not `Equals`. -/
theorem updateNeededLoop_spec (typ : ObjectType) (d c : Value) :
    ∀ l : List Attribute,
      (∀ a ∈ l, a.name ∉ providedAttributes typ → (d.Get a.name).isSome) →
      (∀ a ∈ l, a.name ∉ providedAttributes typ → (c.Get a.name).isSome) →
      ∃ b, updateNeededLoop typ d c l = .ok b ∧
        (b = true ↔ ∃ a ∈ l, a.name ∉ providedAttributes typ ∧
          ∃ dv av, d.Get a.name = some dv ∧ c.Get a.name = some av ∧ dv.equals av = false)
  | [], _, _ => ⟨false, rfl, by simp⟩
  | a :: rest, hd, hc => by
    obtain ⟨b, hb, hiff⟩ := updateNeededLoop_spec typ d c rest
      (fun x hx => hd x (List.mem_cons_of_mem _ hx)) (fun x hx => hc x (List.mem_cons_of_mem _ hx))
    by_cases hp : a.name ∈ providedAttributes typ
    · refine ⟨b, ?_, ?_⟩
      · simp only [updateNeededLoop, (isProvided_iff typ a.name).2 hp, if_true, hb]
      · simp only [List.exists_mem_cons_iff, hp, not_true_eq_false, false_and, false_or]
        exact hiff
    · have hpf : isProvided typ a.name = false := (isProvided_eq_false_iff typ a.name).2 hp
      obtain ⟨dv, hdv⟩ := Option.isSome_iff_exists.1 (hd a (List.mem_cons_self _ _) hp)
      obtain ⟨av, hav⟩ := Option.isSome_iff_exists.1 (hc a (List.mem_cons_self _ _) hp)
      cases he : dv.equals av with
      | true =>
        refine ⟨b, ?_, ?_⟩
        · simp [updateNeededLoop, hpf, Attribute.Get, hdv, hav, he, hb]
        · rw [hiff, List.exists_mem_cons_iff]
          constructor
          · exact Or.inr
          · rintro (⟨_, dv2, av2, h1, h2, h3⟩ | h)
            · rw [hdv] at h1
              rw [hav] at h2
              cases h1
              cases h2
              rw [he] at h3
              cases h3
            · exact h
      | false =>
        refine ⟨true, ?_, ?_⟩
        · simp [updateNeededLoop, hpf, Attribute.Get, hdv, hav, he]
        · simp only [List.exists_mem_cons_iff, true_iff]
          exact Or.inl ⟨hp, dv, av, hdv, hav, he⟩

/-- Desired states that agree on every compared attribute go through the loop alike. -/
theorem updateNeededLoop_congr (typ : ObjectType) (d1 d2 c : Value) :
    ∀ l : List Attribute,
      (∀ a ∈ l, a.name ∉ providedAttributes typ → d1.Get a.name = d2.Get a.name) →
      updateNeededLoop typ d1 c l = updateNeededLoop typ d2 c l
  | [], _ => rfl
  | a :: rest, h => by
    have ih := updateNeededLoop_congr typ d1 d2 c rest
      (fun x hx => h x (List.mem_cons_of_mem _ hx))
    by_cases hp : a.name ∈ providedAttributes typ
    · simp only [updateNeededLoop, (isProvided_iff typ a.name).2 hp, if_true, ih]
    · have hpf : isProvided typ a.name = false := (isProvided_eq_false_iff typ a.name).2 hp
      simp only [updateNeededLoop, hpf, Attribute.Get, h a (List.mem_cons_self _ _) hp, ih]

/-! ## The branches of `Run` under Upsert for a resource without a declared external id -/

theorem requireExists_upsert :
    (Operation.Upsert == Operation.Read || Operation.Upsert == Operation.Delete) = false := by
  decide

theorem asPuppetObject_of_isInstance (t : ObjectType) (v : Value)
    (h : t.IsInstance v = true) : asPuppetObject v = .ok v := by
  cases v <;> simp [ObjectType.IsInstance] at h
  rfl

/-- An instance of a type holds a value for each of the type's attributes. -/
theorem get_isSome_of_isInstance (t : ObjectType) (v : Value) (h : t.IsInstance v = true)
    (a : Attribute) (ha : a ∈ t.attributes) : (v.Get a.name).isSome = true := by
  cases v <;> simp [ObjectType.IsInstance] at h
  obtain ⟨x, hx⟩ := h.2 a ha
  simp only [Value.Get]
  cases hl : List.lookup a.name _ with
  | some y => rfl
  | none =>
    rw [List.lookup_eq_none_iff] at hl
    exact absurd hx (fun hmem => by simpa using hl _ hmem)

/-- The create branch: no identity record, `State` yields `d`, `create(d)` returns
`[obj, ext, ..]` with `obj` an instance. -/
theorem Run_upsert_unrecorded {σ : Type} (r : resource) (c : Context σ) (input : Value)
    (w : World σ) (d obj ext : Value) (rest : List Value) (s1 s2 : σ)
    (hext : r.extId = none) (hop : c.operation = Operation.Upsert)
    (hrec : w.identity.lookup r.Identifier = none)
    (hstate : c.state w.services r.name input = (.ok d, s1))
    (hcreate : c.invoke s1 c.handlerDef.name "create" [some d]
      = (.ok (.array (obj :: ext :: rest)), s2))
    (hinst : r.typ.IsInstance obj = true) :
    r.Run c input w = (r.project obj,
      { identity := (r.Identifier, ext.ToString) ::
          w.identity.filter (fun p => p.1 != r.Identifier && p.2 != ext.ToString),
        services := s2,
        trace := w.trace ++
          [Event.getExternal r.Identifier false, Event.state r.name input,
           Event.invoke c.handlerDef.name "create" [some d],
           Event.associate r.Identifier ext.ToString] }) := by
  have hobj := asPuppetObject_of_isInstance r.typ obj hinst
  simp [resource.Run, resource.create, hext, hop, Eff.bind, pure, Invoke, State,
    getExternal, associate, hrec, hstate, hcreate, Eff.lift, asList, At, AssertInstance,
    hinst, hobj, bind, Except.bind]

/-- The shared start of the recorded branches: the identity lookup finds `s`, `State` yields
`d`, `read(s)` returns the instance `cur`; what follows depends on `updateNeeded`. -/
theorem Run_upsert_recorded {σ : Type} (r : resource) (c : Context σ) (input : Value)
    (w : World σ) (s : String) (d cur : Value) (s1 s2 : σ)
    (hext : r.extId = none) (hop : c.operation = Operation.Upsert)
    (hrec : w.identity.lookup r.Identifier = some s)
    (hstate : c.state w.services r.name input = (.ok d, s1))
    (hread : c.invoke s1 c.handlerDef.name "read" [some (.str s)] = (.ok cur, s2))
    (hinst : r.typ.IsInstance cur = true) :
    r.Run c input w =
      (match updateNeeded r.typ d cur with
       | .error err => Eff.lift (.error err)
       | .ok true =>
         if c.handlerDef.interface.Member "update" then
           Eff.bind (Invoke c c.handlerDef.name "update" [some (.str s), some d]) fun u =>
             Eff.lift (AssertInstance r.typ u >>= asPuppetObject >>= r.project)
         else
           Eff.bind (Invoke c c.handlerDef.name "delete" [some (.str s)]) fun _ =>
             Eff.bind (removeExternal s) fun _ =>
               Eff.bind (r.create c c.handlerDef.name d) fun result =>
                 Eff.lift (r.project result)
       | .ok false => Eff.lift (r.project cur))
      { identity := w.identity, services := s2,
        trace := w.trace ++
          [Event.getExternal r.Identifier false, Event.state r.name input,
           Event.invoke c.handlerDef.name "read" [some (.str s)]] } := by
  have hobj := asPuppetObject_of_isInstance r.typ cur hinst
  cases hu : updateNeeded r.typ d cur with
  | error err =>
    simp [resource.Run, hext, hop, Eff.bind, pure, Invoke, State, getExternal, hrec, hstate,
      hread, Eff.lift, AssertInstance, hinst, hobj, bind, Except.bind, WrapString, hu]
  | ok b =>
    cases b with
    | false =>
      simp [resource.Run, hext, hop, Eff.bind, pure, Invoke, State, getExternal, hrec, hstate,
        hread, Eff.lift, AssertInstance, hinst, hobj, bind, Except.bind, WrapString, hu]
    | true =>
      by_cases hm : c.handlerDef.interface.Member "update" = true
      · cases hinv : c.invoke s2 c.handlerDef.name "update" [some (.str s), some d] with
        | mk res s3 =>
          cases res with
          | error err =>
            simp [resource.Run, hext, hop, Eff.bind, pure, Invoke, State, getExternal, hrec,
              hstate, hread, Eff.lift, AssertInstance, hinst, hobj, bind, Except.bind,
              WrapString, hu, hm, hinv]
          | ok u =>
            by_cases hi : r.typ.IsInstance u = true
            · cases hpo : asPuppetObject u <;>
              simp [resource.Run, hext, hop, Eff.bind, pure, Invoke, State, getExternal, hrec,
                hstate, hread, Eff.lift, AssertInstance, hinst, hobj, bind, Except.bind,
                WrapString, hu, hm, hinv, hi, hpo]
            · simp [resource.Run, hext, hop, Eff.bind, pure, Invoke, State, getExternal, hrec,
                hstate, hread, Eff.lift, AssertInstance, hinst, hobj, bind, Except.bind,
                WrapString, hu, hm, hinv, hi]
      · cases hinv : c.invoke s2 c.handlerDef.name "delete" [some (.str s)] with
        | mk res s3 =>
          cases res with
          | error err =>
            simp [resource.Run, hext, hop, Eff.bind, pure, Invoke, State, getExternal, hrec,
              hstate, hread, Eff.lift, AssertInstance, hinst, hobj, bind, Except.bind,
              WrapString, hu, hm, hinv]
          | ok u =>
            simp [resource.Run, hext, hop, Eff.bind, pure, Invoke, State, getExternal, hrec,
              hstate, hread, Eff.lift, AssertInstance, hinst, hobj, bind, Except.bind,
              WrapString, hu, hm, hinv, Value.ToString, requireExists_upsert]

/-! ## Alias mapping of a reference -/

/-- The loop of `mapInput` is decided by the first parameter named like the key. -/
theorem mapInputLoop_eq_find (kn : String) (entry : Value × Value) :
    ∀ ips : List Parameter,
      mapInputLoop kn entry ips =
        match ips.find? (fun q => q.name == kn) with
        | some p =>
          (match p.value with
           | some (.str a) => WrapHashEntry (.str a) entry.2
           | _ => entry)
        | none => entry
  | [] => rfl
  | p :: ps => by
    by_cases h : (p.name == kn) = true
    · simp [mapInputLoop, List.find?, h]
    · simp only [Bool.not_eq_true] at h
      simp only [mapInputLoop, List.find?, h, Bool.false_eq_true, if_false]
      exact mapInputLoop_eq_find kn entry ps

/-- The loop of `mapOutput`, for a string key, is decided by the first parameter whose string
value is that key. -/
theorem mapOutputLoop_eq_find (a : String) (v : Value) :
    ∀ ops : List Parameter,
      mapOutputLoop (.str a, v) ops =
        match ops.find? (fun q => decide (q.value = some (.str a))) with
        | some p => WrapHashEntry2 p.name v
        | none => (.str a, v)
  | [] => rfl
  | p :: ps => by
    have ih := mapOutputLoop_eq_find a v ps
    by_cases h : p.value = some (.str a)
    · simp [mapOutputLoop, List.find?, h, Value.equals_refl]
    · have hd : decide (p.value = some (Value.str a)) = false := by simpa using h
      simp only [List.find?, hd]
      rw [← ih]
      cases hv : p.value with
      | none => simp [mapOutputLoop, hv]
      | some x =>
        cases x with
        | str b =>
          have hne : Value.str b ≠ Value.str a := by
            intro hb
            exact h (by rw [hv, hb])
          have hfalse : Value.equals (.str b) (.str a) = false := by
            cases hq : Value.equals (.str b) (.str a) with
            | false => rfl
            | true => exact absurd ((Value.equals_str b (.str a)).1 hq).symm hne
          simp [mapOutputLoop, hv, hfalse]
        | undef => simp [mapOutputLoop, hv]
        | bool _ => simp [mapOutputLoop, hv]
        | int _ => simp [mapOutputLoop, hv]
        | array _ => simp [mapOutputLoop, hv]
        | hash _ => simp [mapOutputLoop, hv]
        | object _ _ => simp [mapOutputLoop, hv]

/-! ## The projection onto `Output()` -/

theorem subEntries_ok (o : Value) :
    ∀ xs : List Value, (∀ e ∈ xs, (o.Get e.ToString).isSome = true) →
      subEntries o xs = .ok (xs.map (fun e => (e, (o.Get e.ToString).getD .undef)))
  | [], _ => rfl
  | e :: es, h => by
    obtain ⟨v, hv⟩ := Option.isSome_iff_exists.1 (h e (List.mem_cons_self _ _))
    have ih := subEntries_ok o es (fun x hx => h x (List.mem_cons_of_mem _ hx))
    simp [subEntries, hv, ih, WrapHashEntry]

theorem subEntries_error (o : Value) :
    ∀ xs : List Value, (∃ e ∈ xs, o.Get e.ToString = none) →
      ∃ n, o.Get n = none ∧ subEntries o xs = .error (.noSuchAttribute n)
  | [], h => by simp at h
  | e :: es, h => by
    cases hv : o.Get e.ToString with
    | none => exact ⟨e.ToString, hv, by simp [subEntries, hv]⟩
    | some v =>
      have hrest : ∃ x ∈ es, o.Get x.ToString = none := by
        obtain ⟨x, hx, hnone⟩ := h
        rcases List.mem_cons.1 hx with rfl | hmem
        · rw [hv] at hnone
          cases hnone
        · exact ⟨x, hmem, hnone⟩
      obtain ⟨n, hn, herr⟩ := subEntries_error o es hrest
      exact ⟨n, hn, by simp [subEntries, hv, herr]⟩

theorem getValue_ok (r : resource) (p : Parameter) (o : Value)
    (h : ∀ n ∈ p.attributeNames, (o.Get n).isSome = true) :
    r.getValue p o = .ok (.str p.name, p.projected o) := by
  unfold Parameter.attributeNames at h
  unfold resource.getValue Parameter.projected
  cases hv : p.value with
  | none =>
    rw [hv] at h
    obtain ⟨v, hg⟩ := Option.isSome_iff_exists.1 (h p.name (by simp))
    simp [hg, WrapHashEntry2]
  | some x =>
    rw [hv] at h
    cases x with
    | array xs =>
      have hs := subEntries_ok o xs (fun e he => h e.ToString (List.mem_map_of_mem _ he))
      simp [hs, WrapHashEntry2, WrapHash]
    | str a =>
      obtain ⟨v, hg⟩ := Option.isSome_iff_exists.1 (h a (by simp))
      simp [hg, WrapHashEntry2]
    | undef =>
      obtain ⟨v, hg⟩ := Option.isSome_iff_exists.1 (h p.name (by simp))
      simp [hg, WrapHashEntry2]
    | bool _ =>
      obtain ⟨v, hg⟩ := Option.isSome_iff_exists.1 (h p.name (by simp))
      simp [hg, WrapHashEntry2]
    | int _ =>
      obtain ⟨v, hg⟩ := Option.isSome_iff_exists.1 (h p.name (by simp))
      simp [hg, WrapHashEntry2]
    | hash _ =>
      obtain ⟨v, hg⟩ := Option.isSome_iff_exists.1 (h p.name (by simp))
      simp [hg, WrapHashEntry2]
    | object _ _ =>
      obtain ⟨v, hg⟩ := Option.isSome_iff_exists.1 (h p.name (by simp))
      simp [hg, WrapHashEntry2]

theorem getValue_error (r : resource) (p : Parameter) (o : Value)
    (h : ∃ n ∈ p.attributeNames, o.Get n = none) :
    ∃ n, o.Get n = none ∧ r.getValue p o = .error (.noSuchAttribute n) := by
  unfold Parameter.attributeNames at h
  unfold resource.getValue
  cases hv : p.value with
  | none =>
    rw [hv] at h
    obtain ⟨n, hn, hg⟩ := h
    simp at hn
    subst hn
    exact ⟨p.name, hg, by simp [hg]⟩
  | some x =>
    rw [hv] at h
    cases x with
    | array xs =>
      obtain ⟨n, hn, hg⟩ := h
      obtain ⟨e, he, rfl⟩ := List.mem_map.1 hn
      obtain ⟨m, hm, herr⟩ := subEntries_error o xs ⟨e, he, hg⟩
      exact ⟨m, hm, by simp [herr]⟩
    | str a =>
      obtain ⟨n, hn, hg⟩ := h
      simp at hn
      subst hn
      exact ⟨n, hg, by simp [hg]⟩
    | undef =>
      obtain ⟨n, hn, hg⟩ := h
      simp at hn
      subst hn
      exact ⟨p.name, hg, by simp [hg]⟩
    | bool _ =>
      obtain ⟨n, hn, hg⟩ := h
      simp at hn
      subst hn
      exact ⟨p.name, hg, by simp [hg]⟩
    | int _ =>
      obtain ⟨n, hn, hg⟩ := h
      simp at hn
      subst hn
      exact ⟨p.name, hg, by simp [hg]⟩
    | hash _ =>
      obtain ⟨n, hn, hg⟩ := h
      simp at hn
      subst hn
      exact ⟨p.name, hg, by simp [hg]⟩
    | object _ _ =>
      obtain ⟨n, hn, hg⟩ := h
      simp at hn
      subst hn
      exact ⟨p.name, hg, by simp [hg]⟩

theorem entries_ok (r : resource) (o : Value) :
    ∀ ps : List Parameter, (∀ p ∈ ps, ∀ n ∈ p.attributeNames, (o.Get n).isSome = true) →
      r.entries o ps = .ok (ps.map (fun p => (Value.str p.name, p.projected o)))
  | [], _ => rfl
  | p :: ps, h => by
    have hp := getValue_ok r p o (h p (List.mem_cons_self _ _))
    have ih := entries_ok r o ps (fun q hq => h q (List.mem_cons_of_mem _ hq))
    simp [resource.entries, hp, ih]

theorem entries_error (r : resource) (o : Value) :
    ∀ ps : List Parameter, (∃ p ∈ ps, ∃ n ∈ p.attributeNames, o.Get n = none) →
      ∃ n, o.Get n = none ∧ r.entries o ps = .error (.noSuchAttribute n)
  | [], h => by simp at h
  | p :: ps, h => by
    by_cases hp : ∃ n ∈ p.attributeNames, o.Get n = none
    · obtain ⟨n, hn, herr⟩ := getValue_error r p o hp
      exact ⟨n, hn, by simp [resource.entries, herr]⟩
    · have hall : ∀ n ∈ p.attributeNames, (o.Get n).isSome = true := by
        intro n hn
        cases hg : o.Get n with
        | none => exact absurd ⟨n, hn, hg⟩ hp
        | some v => rfl
      have hrest : ∃ q ∈ ps, ∃ n ∈ q.attributeNames, o.Get n = none := by
        obtain ⟨q, hq, hex⟩ := h
        rcases List.mem_cons.1 hq with rfl | hmem
        · exact absurd hex hp
        · exact ⟨q, hmem, hex⟩
      obtain ⟨n, hn, herr⟩ := entries_error r o ps hrest
      exact ⟨n, hn, by simp [resource.entries, getValue_ok r p o hall, herr]⟩

/-! ## The receive loop of `InvokeAction` -/

theorem MessageIds.resource_ne_invoke (ids : MessageIds) :
    ids.GenesisResourceId ≠ ids.InvokeActionId := fun e => ids.distinct.1 e.symm

theorem MessageIds.notice_ne_invoke (ids : MessageIds) :
    ids.GenesisNoticeId ≠ ids.InvokeActionId := fun e => ids.distinct.2.1 e.symm

theorem MessageIds.notice_ne_resource (ids : MessageIds) :
    ids.GenesisNoticeId ≠ ids.GenesisResourceId := fun e => ids.distinct.2.2 e.symm

theorem answerable_cases {D : Type} (ids : MessageIds) (codec : DataCodec D) (m : Message D)
    (h : answerable ids codec m = true) :
    (m.Id = ids.GenesisResourceId ∧ ∃ v, codec.FromPBData m.Value = .hash v) ∨
      (m.Id = ids.GenesisNoticeId ∧ ∃ v, codec.FromData m.Value = .ok v) := by
  unfold answerable at h
  simp only [Bool.or_eq_true, Bool.and_eq_true, beq_iff_eq] at h
  rcases h with ⟨hid, hv⟩ | ⟨hid, hv⟩
  · left
    refine ⟨hid, ?_⟩
    cases hd : codec.FromPBData m.Value <;> simp [hd] at hv
    exact ⟨_, rfl⟩
  · right
    refine ⟨hid, ?_⟩
    cases hd : codec.FromData m.Value <;> simp [hd] at hv
    exact ⟨_, rfl⟩

theorem answerable_ne_invokeAction {D : Type} (ids : MessageIds) (codec : DataCodec D)
    (m : Message D) (h : answerable ids codec m = true) : m.Id ≠ ids.InvokeActionId := by
  rcases answerable_cases ids codec m h with ⟨hid, _⟩ | ⟨hid, _⟩
  · rw [hid]
    exact fun e => ids.distinct.1 e.symm
  · rw [hid]
    exact fun e => ids.distinct.2.1 e.symm

/-- One turn of the loop on a `GENESIS_RESOURCE` message whose value is an ordered map. -/
theorem recvLoop_resource {D : Type} (ids : MessageIds) (codec : DataCodec D)
    (genesis : Genesis) (f : Nat → Bool) (m : Message D) (rest : List (Message D)) (n : Nat)
    (v : OrderedMap) (hid : m.Id = ids.GenesisResourceId)
    (hv : codec.FromPBData m.Value = .hash v) :
    recvLoop ids codec genesis f (m :: rest) n =
      ((recvLoop ids codec genesis f rest (n + 1)).1,
        [.recv m, .resource v, .send ⟨m.Id, codec.ToPBData (genesis.Resource v)⟩ (f n)] ++
          (recvLoop ids codec genesis f rest (n + 1)).2) := by
  have h1 : (ids.GenesisResourceId == ids.InvokeActionId) = false := by
    simpa using fun e => ids.distinct.1 e.symm
  simp [recvLoop, hid, h1, hv, asOrderedMap]

/-- One turn of the loop on a `GENESIS_NOTICE` message whose value can be decoded. -/
theorem recvLoop_notice {D : Type} (ids : MessageIds) (codec : DataCodec D)
    (genesis : Genesis) (f : Nat → Bool) (m : Message D) (rest : List (Message D)) (n : Nat)
    (v : GoValue) (hid : m.Id = ids.GenesisNoticeId) (hv : codec.FromData m.Value = .ok v) :
    recvLoop ids codec genesis f (m :: rest) n =
      ((recvLoop ids codec genesis f rest n).1,
        [.recv m, .notice v.ToString] ++ (recvLoop ids codec genesis f rest n).2) := by
  have h1 : (ids.GenesisNoticeId == ids.InvokeActionId) = false := by
    simpa using fun e => ids.distinct.2.1 e.symm
  have h2 : (ids.GenesisNoticeId == ids.GenesisResourceId) = false := by
    simpa using fun e => ids.distinct.2.2 e.symm
  simp [recvLoop, hid, h1, h2, hv]

/-- One turn of the loop on the final response. -/
theorem recvLoop_final {D : Type} (ids : MessageIds) (codec : DataCodec D)
    (genesis : Genesis) (f : Nat → Bool) (m : Message D) (rest : List (Message D)) (n : Nat)
    (hid : m.Id = ids.InvokeActionId) :
    recvLoop ids codec genesis f (m :: rest) n = (.ok m.Value, [.recv m, .closeSend]) := by
  simp [recvLoop, hid]

/-- Answerable callbacks are answered in order, and the loop goes on with what follows. -/
theorem recvLoop_prefix {D : Type} (ids : MessageIds) (codec : DataCodec D)
    (genesis : Genesis) (f : Nat → Bool) (rest : List (Message D)) :
    ∀ (pre : List (Message D)) (n : Nat), (∀ m ∈ pre, answerable ids codec m = true) →
      ∃ k, recvLoop ids codec genesis f (pre ++ rest) n =
        ((recvLoop ids codec genesis f rest k).1,
          callbackEvents ids codec genesis f pre n ++ (recvLoop ids codec genesis f rest k).2)
  | [], n, _ => ⟨n, by simp [callbackEvents]⟩
  | m :: pre, n, h => by
    have hm := h m (List.mem_cons_self _ _)
    have hpre : ∀ x ∈ pre, answerable ids codec x = true :=
      fun x hx => h x (List.mem_cons_of_mem _ hx)
    rcases answerable_cases ids codec m hm with ⟨hid, v, hv⟩ | ⟨hid, v, hv⟩
    · obtain ⟨k, hk⟩ := recvLoop_prefix ids codec genesis f rest pre (n + 1) hpre
      refine ⟨k, ?_⟩
      rw [List.cons_append, recvLoop_resource ids codec genesis f m _ n v hid hv, hk]
      simp [callbackEvents, hid, hv]
    · obtain ⟨k, hk⟩ := recvLoop_prefix ids codec genesis f rest pre n hpre
      have h2 : (ids.GenesisNoticeId == ids.GenesisResourceId) = false := by
        simpa using fun e => ids.distinct.2.2 e.symm
      refine ⟨k, ?_⟩
      rw [List.cons_append, recvLoop_notice ids codec genesis f m _ n v hid hv, hk]
      simp [callbackEvents, hid, h2, hv]

/-- A result comes from the first `INVOKE_ACTION` message, after answerable callbacks only. -/
theorem recvLoop_ok_decomp {D : Type} (ids : MessageIds) (codec : DataCodec D)
    (genesis : Genesis) (f : Nat → Bool) (v : D) :
    ∀ (inbound : List (Message D)) (n : Nat),
      (recvLoop ids codec genesis f inbound n).1 = .ok v →
      ∃ pre final post, inbound = pre ++ final :: post ∧ final.Id = ids.InvokeActionId ∧
        final.Value = v ∧ ∀ m ∈ pre, answerable ids codec m = true
  | [], n, h => by simp [recvLoop] at h
  | m :: rest, n, h => by
    by_cases h1 : m.Id = ids.InvokeActionId
    · rw [recvLoop_final ids codec genesis f m rest n h1] at h
      exact ⟨[], m, rest, rfl, h1, by simpa using h, by simp⟩
    · by_cases h2 : m.Id = ids.GenesisResourceId
      · cases hv : codec.FromPBData m.Value with
        | hash x =>
          rw [recvLoop_resource ids codec genesis f m rest n x h2 hv] at h
          obtain ⟨pre, final, post, hin, hid, hval, hall⟩ :=
            recvLoop_ok_decomp ids codec genesis f v rest (n + 1) h
          refine ⟨m :: pre, final, post, by rw [hin]; rfl, hid, hval, ?_⟩
          intro y hy
          rcases List.mem_cons.1 hy with rfl | hmem
          · simp [answerable, h2, hv]
          · exact hall y hmem
        | undef => simp [recvLoop, h2, hv, asOrderedMap, ids.resource_ne_invoke] at h
        | bool _ => simp [recvLoop, h2, hv, asOrderedMap, ids.resource_ne_invoke] at h
        | int _ => simp [recvLoop, h2, hv, asOrderedMap, ids.resource_ne_invoke] at h
        | str _ => simp [recvLoop, h2, hv, asOrderedMap, ids.resource_ne_invoke] at h
        | array _ => simp [recvLoop, h2, hv, asOrderedMap, ids.resource_ne_invoke] at h
        | object _ _ => simp [recvLoop, h2, hv, asOrderedMap, ids.resource_ne_invoke] at h
      · by_cases h3 : m.Id = ids.GenesisNoticeId
        · cases hv : codec.FromData m.Value with
          | error e =>
            simp [recvLoop, h3, hv, ids.notice_ne_invoke, ids.notice_ne_resource] at h
          | ok x =>
            rw [recvLoop_notice ids codec genesis f m rest n x h3 hv] at h
            obtain ⟨pre, final, post, hin, hid, hval, hall⟩ :=
              recvLoop_ok_decomp ids codec genesis f v rest n h
            refine ⟨m :: pre, final, post, by rw [hin]; rfl, hid, hval, ?_⟩
            intro y hy
            rcases List.mem_cons.1 hy with rfl | hmem
            · simp [answerable, h3, hv]
            · exact hall y hmem
        · simp [recvLoop, h1, h2, h3] at h

/-- A callback that cannot be answered ends the loop after its receipt, without a result. -/
theorem recvLoop_unanswerable {D : Type} (ids : MessageIds) (codec : DataCodec D)
    (genesis : Genesis) (f : Nat → Bool) (m : Message D) (rest : List (Message D)) (n : Nat)
    (hne : m.Id ≠ ids.InvokeActionId) (hno : answerable ids codec m = false) :
    ∃ e, recvLoop ids codec genesis f (m :: rest) n = (.error e, [.recv m]) := by
  by_cases h2 : m.Id = ids.GenesisResourceId
  · cases hv : codec.FromPBData m.Value <;>
      simp [recvLoop, h2, hv, asOrderedMap, ids.resource_ne_invoke, answerable] at hno ⊢
  · by_cases h3 : m.Id = ids.GenesisNoticeId
    · cases hv : codec.FromData m.Value <;>
        simp [recvLoop, h3, hv, ids.notice_ne_invoke, ids.notice_ne_resource, answerable]
          at hno ⊢
    · simp [recvLoop, hne, h2, h3]

/-- Without an `INVOKE_ACTION` message the loop ends without a result. -/
theorem recvLoop_no_final {D : Type} (ids : MessageIds) (codec : DataCodec D)
    (genesis : Genesis) (f : Nat → Bool) (inbound : List (Message D)) (n : Nat)
    (h : ∀ m ∈ inbound, m.Id ≠ ids.InvokeActionId) :
    ∃ e, (recvLoop ids codec genesis f inbound n).1 = .error e := by
  cases hr : (recvLoop ids codec genesis f inbound n).1 with
  | error e => exact ⟨e, rfl⟩
  | ok v =>
    obtain ⟨pre, final, post, hin, hid, _, _⟩ :=
      recvLoop_ok_decomp ids codec genesis f v inbound n hr
    exact absurd hid (h final (by rw [hin]; simp))

/-- The decomposition at the first `INVOKE_ACTION` message is unique. -/
theorem first_final_unique {D : Type} (ids : MessageIds) :
    ∀ (pre pre2 : List (Message D)) (final final2 : Message D) (post post2 : List (Message D)),
      pre ++ final :: post = pre2 ++ final2 :: post2 →
      (∀ m ∈ pre, m.Id ≠ ids.InvokeActionId) → (∀ m ∈ pre2, m.Id ≠ ids.InvokeActionId) →
      final.Id = ids.InvokeActionId → final2.Id = ids.InvokeActionId →
      pre = pre2 ∧ final = final2
  | [], [], _, _, _, _, h, _, _, _, _ => by
    simp at h
    exact ⟨rfl, h.1⟩
  | [], m :: pre2, final, _, _, _, h, _, h2, hf, _ => by
    simp at h
    exact absurd (h.1 ▸ hf) (h2 m (List.mem_cons_self _ _))
  | m :: pre, [], _, final2, _, _, h, h1, _, _, hf2 => by
    simp at h
    exact absurd (h.1 ▸ hf2) (h1 m (List.mem_cons_self _ _))
  | m :: pre, m2 :: pre2, final, final2, post, post2, h, h1, h2, hf, hf2 => by
    simp only [List.cons_append, List.cons.injEq] at h
    obtain ⟨hp, hfin⟩ := first_final_unique ids pre pre2 final final2 post post2 h.2
      (fun x hx => h1 x (List.mem_cons_of_mem _ hx))
      (fun x hx => h2 x (List.mem_cons_of_mem _ hx)) hf hf2
    exact ⟨by rw [h.1, hp], hfin⟩

/-- What the events of answered callbacks have read is those callbacks. -/
theorem received_callbackEvents {D : Type} (ids : MessageIds) (codec : DataCodec D)
    (genesis : Genesis) (f : Nat → Bool) (tl : List (StreamEvent D)) :
    ∀ (pre : List (Message D)) (n : Nat), (∀ m ∈ pre, answerable ids codec m = true) →
      received (callbackEvents ids codec genesis f pre n ++ tl) = pre ++ received tl
  | [], _, _ => by simp [callbackEvents]
  | m :: pre, n, h => by
    have hpre : ∀ x ∈ pre, answerable ids codec x = true :=
      fun x hx => h x (List.mem_cons_of_mem _ hx)
    have h2 : (ids.GenesisNoticeId == ids.GenesisResourceId) = false := by
      simpa using fun e => ids.distinct.2.2 e.symm
    rcases answerable_cases ids codec m (h m (List.mem_cons_self _ _)) with
      ⟨hid, v, hv⟩ | ⟨hid, v, hv⟩
    · simp [callbackEvents, hid, hv, received,
        received_callbackEvents ids codec genesis f tl pre (n + 1) hpre]
    · simp [callbackEvents, hid, h2, hv, received,
        received_callbackEvents ids codec genesis f tl pre n hpre]

/-- The results of the sends bear neither on the outcome of the loop nor on its events. -/
theorem recvLoop_sendFails_irrelevant {D : Type} (ids : MessageIds) (codec : DataCodec D)
    (genesis : Genesis) (f g : Nat → Bool) :
    ∀ (inbound : List (Message D)) (n k : Nat),
      (recvLoop ids codec genesis f inbound n).1 = (recvLoop ids codec genesis g inbound k).1 ∧
      (recvLoop ids codec genesis f inbound n).2.map StreamEvent.withoutSendResult =
        (recvLoop ids codec genesis g inbound k).2.map StreamEvent.withoutSendResult
  | [], _, _ => by simp [recvLoop]
  | m :: rest, n, k => by
    by_cases h1 : m.Id = ids.InvokeActionId
    · simp [recvLoop, h1]
    · by_cases h2 : m.Id = ids.GenesisResourceId
      · cases hv : asOrderedMap (codec.FromPBData m.Value) with
        | error e => simp [recvLoop, h2, hv, ids.resource_ne_invoke]
        | ok x =>
          have ih := recvLoop_sendFails_irrelevant ids codec genesis f g rest (n + 1) (k + 1)
          have h1b : (ids.GenesisResourceId == ids.InvokeActionId) = false := by
            simpa using fun e => ids.distinct.1 e.symm
          simp [recvLoop, h2, h1b, hv, ih.1, ih.2, StreamEvent.withoutSendResult]
      · by_cases h3 : m.Id = ids.GenesisNoticeId
        · cases hv : codec.FromData m.Value with
          | error e => simp [recvLoop, h3, hv, ids.notice_ne_invoke, ids.notice_ne_resource]
          | ok x =>
            have ih := recvLoop_sendFails_irrelevant ids codec genesis f g rest n k
            have h1b : (ids.GenesisNoticeId == ids.InvokeActionId) = false := by
              simpa using fun e => ids.distinct.2.1 e.symm
            have h2b : (ids.GenesisNoticeId == ids.GenesisResourceId) = false := by
              simpa using fun e => ids.distinct.2.2 e.symm
            simp [recvLoop, h3, h1b, h2b, hv, ih.1, ih.2, StreamEvent.withoutSendResult]
        · simp [recvLoop, h1, h2, h3]

/-- A run whose callbacks can all be answered: the result is the value of the final response,
and the events are the initial send, the answers in order, the receipt of the final response
and the closing of the send side. -/
theorem InvokeAction_answered {D : Type} (ids : MessageIds) (codec : DataCodec D)
    (client : ActorsClient D) (args : D) (genesis : Genesis)
    (pre post : List (Message D)) (final : Message D)
    (hopen : client.openError = none) (hin : client.inbound = pre ++ final :: post)
    (hfinal : final.Id = ids.InvokeActionId)
    (hall : ∀ m ∈ pre, answerable ids codec m = true) :
    InvokeAction ids codec client args genesis =
      (.ok final.Value, .send ⟨ids.InvokeActionId, args⟩ (client.sendFails 0) ::
        (callbackEvents ids codec genesis client.sendFails pre 1 ++
          [.recv final, .closeSend])) := by
  obtain ⟨k, hk⟩ :=
    recvLoop_prefix ids codec genesis client.sendFails (final :: post) pre 1 hall
  rw [recvLoop_final ids codec genesis client.sendFails final post k hfinal] at hk
  simp only [InvokeAction, hopen, hin, hk]

/-! ## Claims -/

/-- C1: for a resource declared with an explicit external id `e`, whatever the input, the
handler and the identity store, `Run` under Upsert performs exactly one effect, the handler
invocation `read(e)`: no `create`, `update` or `delete`, no call of `State`, no `associate` and
no `removeExternal`; the identity store is left as it was. -/
theorem upsert_explicit_only_reads {σ : Type} (r : resource) (c : Context σ) (input : Value)
    (w : World σ) (e : Value) (hext : r.extId = some e) (hop : c.operation = Operation.Upsert) :
    (r.Run c input w).2.trace = w.trace ++ [Event.invoke c.handlerDef.name "read" [some e]] ∧
      (r.Run c input w).2.identity = w.identity := by
  simp only [resource.Run, hext, hop, Option.isSome_some, Bool.not_true, Bool.false_eq_true,
    if_false, if_true, Eff.bind_apply, Eff.pure_apply, Invoke]
  cases h : (c.invoke w.services c.handlerDef.name "read" [some e]).1 with
  | error err => simp
  | ok v =>
    simp only [Eff.lift_bind_apply]
    cases asPuppetObject v <;> simp [Eff.lift_apply]

/-- C1 at the scenario "explicit external read": resource `host` declared with
`external_id: "E0"`. -/
theorem upsert_explicit_only_reads_witness :
    externalHost.extId = some (Value.str "E0") ∧
      (hostContext Operation.Upsert crdInterface).operation = Operation.Upsert ∧
      ((externalHost.Run (hostContext Operation.Upsert crdInterface) (hostInput "1.1.1.1")
          emptyWorld).2.trace
        = emptyWorld.trace ++
          [Event.invoke (hostContext Operation.Upsert crdInterface).handlerDef.name "read"
            [some (Value.str "E0")]] ∧
       (externalHost.Run (hostContext Operation.Upsert crdInterface) (hostInput "1.1.1.1")
          emptyWorld).2.identity = emptyWorld.identity) :=
  ⟨rfl, rfl, upsert_explicit_only_reads externalHost (hostContext Operation.Upsert crdInterface)
    (hostInput "1.1.1.1") emptyWorld (Value.str "E0") rfl rfl⟩

/-- C2: the value of `updateNeeded` that `Run` computes under Upsert from the desired state
`d` and the current state `c` of a recorded resource. When both states hold a value for every
attribute that is compared, `updateNeeded` is true if and only if some attribute of the resource
type that is not listed in `providedAttributes` has a desired value and a current value that
are not equal, in the sense of the value library's `Equals` (which ignores the order of hash
entries). Hence desired states `d` and `d2` that agree outside the provided attributes give
the same `updateNeeded`; and when the type has no resource entry, or an empty list of
provided attributes, every attribute is compared. -/
theorem updateNeeded_iff_compared_attribute_differs (typ : ObjectType) (d d2 c : Value) :
    ((∀ a ∈ typ.attributes, a.name ∉ providedAttributes typ → (d.Get a.name).isSome) →
      (∀ a ∈ typ.attributes, a.name ∉ providedAttributes typ → (c.Get a.name).isSome) →
      ∃ b, updateNeeded typ d c = .ok b ∧
        (b = true ↔
          ∃ a ∈ typ.attributes, a.name ∉ providedAttributes typ ∧
            ∃ dv av, d.Get a.name = some dv ∧ c.Get a.name = some av ∧
              dv.equals av = false)) ∧
    ((∀ a ∈ typ.attributes, a.name ∉ providedAttributes typ → d.Get a.name = d2.Get a.name) →
      updateNeeded typ d c = updateNeeded typ d2 c) ∧
    ((typ.anno = none ∨ ∃ ra, typ.anno = some ra ∧ ra.ProvidedAttributes = []) →
      (∀ a ∈ typ.attributes, (d.Get a.name).isSome) →
      (∀ a ∈ typ.attributes, (c.Get a.name).isSome) →
      ∃ b, updateNeeded typ d c = .ok b ∧
        (b = true ↔
          ∃ a ∈ typ.attributes,
            ∃ dv av, d.Get a.name = some dv ∧ c.Get a.name = some av ∧
              dv.equals av = false)) := by
  refine ⟨updateNeededLoop_spec typ d c typ.attributes,
    updateNeededLoop_congr typ d d2 c typ.attributes, ?_⟩
  intro hanno hd hc
  have hnil : providedAttributes typ = [] := by
    unfold providedAttributes
    rcases hanno with h | ⟨ra, h, hra⟩
    · rw [h]
    · rw [h]
      exact hra
  obtain ⟨b, hb, hiff⟩ := updateNeededLoop_spec typ d c typ.attributes
    (fun a ha _ => hd a ha) (fun a ha _ => hc a ha)
  refine ⟨b, hb, ?_⟩
  rw [hiff]
  simp [hnil]

/-- C2 at the scenario's `Host{name, ip, id(provided)}`: a changed `ip` needs an update, and a
desired `id` does not change the verdict; and at a `Box` whose attribute `cfg` is a hash: the
same entries in another order need no update, a changed entry does. -/
theorem updateNeeded_iff_compared_attribute_differs_witness :
    (∃ b, updateNeeded hostType (hostDesired "2.2.2.2") (hostStored "1.1.1.1" "H1") = .ok b ∧
      (b = true ↔ ∃ a ∈ hostType.attributes, a.name ∉ providedAttributes hostType ∧
        ∃ dv av, (hostDesired "2.2.2.2").Get a.name = some dv ∧
          (hostStored "1.1.1.1" "H1").Get a.name = some av ∧ dv.equals av = false)) ∧
    updateNeeded hostType (hostDesired "2.2.2.2") (hostStored "1.1.1.1" "H1") =
      updateNeeded hostType (hostStored "2.2.2.2" "X") (hostStored "1.1.1.1" "H1") ∧
    (∃ b, updateNeeded boxType (boxWith [(.str "a", .int 1), (.str "b", .int 2)])
        (boxWith [(.str "b", .int 2), (.str "a", .int 1)]) = .ok b ∧
      (b = true ↔ ∃ a ∈ boxType.attributes,
        ∃ dv av, (boxWith [(.str "a", .int 1), (.str "b", .int 2)]).Get a.name = some dv ∧
          (boxWith [(.str "b", .int 2), (.str "a", .int 1)]).Get a.name = some av ∧
          dv.equals av = false)) ∧
    updateNeeded boxType (boxWith [(.str "a", .int 1), (.str "b", .int 2)])
        (boxWith [(.str "b", .int 2), (.str "a", .int 1)]) = .ok false ∧
    updateNeeded boxType (boxWith [(.str "a", .int 1), (.str "b", .int 2)])
        (boxWith [(.str "b", .int 2), (.str "a", .int 3)]) = .ok true ∧
    updateNeeded hostType (hostDesired "2.2.2.2") (hostStored "1.1.1.1" "H1") = .ok true :=
  ⟨(updateNeeded_iff_compared_attribute_differs hostType (hostDesired "2.2.2.2")
      (hostStored "2.2.2.2" "X") (hostStored "1.1.1.1" "H1")).1 (by decide) (by decide),
   (updateNeeded_iff_compared_attribute_differs hostType (hostDesired "2.2.2.2")
      (hostStored "2.2.2.2" "X") (hostStored "1.1.1.1" "H1")).2.1 (by decide),
   (updateNeeded_iff_compared_attribute_differs boxType
      (boxWith [(.str "a", .int 1), (.str "b", .int 2)])
      (boxWith [(.str "a", .int 1), (.str "b", .int 2)])
      (boxWith [(.str "b", .int 2), (.str "a", .int 1)])).2.2 (Or.inl rfl) (by decide)
      (by decide),
   rfl, rfl, rfl⟩

/-- C3, as stated, fails: on a handler whose `create` returns the host under the qualified
name `prod-a`, the assumptions of the claim hold (no identity record at the start, `State` yields the
same desired state both times, and `read("H1")` returns the object that `create` returned), yet
on the second Upsert with the same input `updateNeeded` is true, and the run deletes and
creates again and changes the identity store. -/
theorem upsert_twice_updates_when_create_rewrites :
    host.extId = none ∧ qualifyingContext.operation = Operation.Upsert ∧
      emptyWorld.identity.lookup host.Identifier = none ∧
      qualifyingContext.state (0, []) host.name (hostInput "1.1.1.1")
        = (.ok (hostDesired "1.1.1.1"), (0, [])) ∧
      qualifyingContext.invoke (0, []) "HostHandler" "create" [some (hostDesired "1.1.1.1")]
        = (.ok (.array [qualifiedStored "1.1.1.1" "H1", .str "H1"]),
            (1, [("H1", qualifiedStored "1.1.1.1" "H1")])) ∧
      hostType.IsInstance (qualifiedStored "1.1.1.1" "H1") = true ∧
      (host.Run qualifyingContext (hostInput "1.1.1.1") emptyWorld).2.services
        = (1, [("H1", qualifiedStored "1.1.1.1" "H1")]) ∧
      qualifyingContext.state (1, [("H1", qualifiedStored "1.1.1.1" "H1")]) host.name
          (hostInput "1.1.1.1")
        = (.ok (hostDesired "1.1.1.1"), (1, [("H1", qualifiedStored "1.1.1.1" "H1")])) ∧
      qualifyingContext.invoke (1, [("H1", qualifiedStored "1.1.1.1" "H1")]) "HostHandler" "read"
          [some (.str "H1")]
        = (.ok (qualifiedStored "1.1.1.1" "H1"), (1, [("H1", qualifiedStored "1.1.1.1" "H1")])) ∧
      updateNeeded host.typ (hostDesired "1.1.1.1") (qualifiedStored "1.1.1.1" "H1") = .ok true ∧
      (host.Run qualifyingContext (hostInput "1.1.1.1")
          (host.Run qualifyingContext (hostInput "1.1.1.1") emptyWorld).2).2.trace
        = (host.Run qualifyingContext (hostInput "1.1.1.1") emptyWorld).2.trace ++
          [Event.getExternal host.Identifier false, Event.state "host" (hostInput "1.1.1.1"),
           Event.invoke "HostHandler" "read" [some (.str "H1")],
           Event.invoke "HostHandler" "delete" [some (.str "H1")],
           Event.removeExternal "H1",
           Event.invoke "HostHandler" "create" [some (hostDesired "1.1.1.1")],
           Event.associate host.Identifier "H2"] ∧
      (host.Run qualifyingContext (hostInput "1.1.1.1")
          (host.Run qualifyingContext (hostInput "1.1.1.1") emptyWorld).2).2.identity
        ≠ (host.Run qualifyingContext (hostInput "1.1.1.1") emptyWorld).2.identity := by
  refine ⟨rfl, rfl, rfl, rfl, rfl, rfl, rfl, rfl, rfl, rfl, ?_, ?_⟩ <;> decide

/-- C3, amended: a resource without a declared external id, starting without an identity
record. If the first Upsert creates (`State` yields `d`, `create(d)` returns `[obj, ext, ..]`
with `obj` an instance of the resource type), the second Upsert with the same input gets the
same `d` from `State` and `obj` from `read(ext)`, and `obj` agrees with `d` on every attribute
that is not listed in `providedAttributes`, then on the second run `updateNeeded` is false, the
run performs only the identity lookup, the `State` call and the handler invocation `read(ext)`
(no `create`, `update` or `delete`), and the identity store is unchanged. -/
theorem upsert_twice_converges {σ : Type} (r : resource) (c : Context σ) (input : Value)
    (w : World σ) (d obj ext : Value) (rest : List Value) (s1 s2 s3 s4 : σ)
    (hext : r.extId = none) (hop : c.operation = Operation.Upsert)
    (hrec : w.identity.lookup r.Identifier = none)
    (hstate : c.state w.services r.name input = (.ok d, s1))
    (hcreate : c.invoke s1 c.handlerDef.name "create" [some d]
      = (.ok (.array (obj :: ext :: rest)), s2))
    (hinst : r.typ.IsInstance obj = true)
    (hstate2 : c.state s2 r.name input = (.ok d, s3))
    (hread : c.invoke s3 c.handlerDef.name "read" [some (.str ext.ToString)] = (.ok obj, s4))
    (hagree : ∀ a ∈ r.typ.attributes, a.name ∉ providedAttributes r.typ →
      d.Get a.name = obj.Get a.name) :
    updateNeeded r.typ d obj = .ok false ∧
      (r.Run c input (r.Run c input w).2).2.trace = (r.Run c input w).2.trace ++
        [Event.getExternal r.Identifier false, Event.state r.name input,
         Event.invoke c.handlerDef.name "read" [some (.str ext.ToString)]] ∧
      (r.Run c input (r.Run c input w).2).2.identity = (r.Run c input w).2.identity := by
  have hu : updateNeeded r.typ d obj = .ok false := by
    obtain ⟨b, hb, hiff⟩ := updateNeededLoop_spec r.typ d obj r.typ.attributes
      (fun a ha hp => by
        rw [hagree a ha hp]
        exact get_isSome_of_isInstance r.typ obj hinst a ha)
      (fun a ha _ => get_isSome_of_isInstance r.typ obj hinst a ha)
    cases b with
    | false => exact hb
    | true =>
      obtain ⟨a, ha, hp, dv, av, hdv, hav, hne⟩ := hiff.1 rfl
      rw [hagree a ha hp, hav] at hdv
      cases hdv
      simp [Value.equals_refl] at hne
  refine ⟨hu, ?_⟩
  rw [Run_upsert_unrecorded r c input w d obj ext rest s1 s2 hext hop hrec hstate hcreate hinst]
  rw [Run_upsert_recorded r c input _ ext.ToString d obj s3 s4 hext hop (by simp) hstate2 hread
    hinst, hu]
  simp [Eff.lift]

/-- C3, amended, at the scenario "create then noop": two Upserts of `host` with ip `1.1.1.1`
on the sample handler. -/
theorem upsert_twice_converges_witness :
    updateNeeded host.typ (hostDesired "1.1.1.1") (hostStored "1.1.1.1" "H1") = .ok false ∧
      (host.Run (hostContext .Upsert crdInterface) (hostInput "1.1.1.1")
          (host.Run (hostContext .Upsert crdInterface) (hostInput "1.1.1.1")
            emptyWorld).2).2.trace
        = (host.Run (hostContext .Upsert crdInterface) (hostInput "1.1.1.1")
            emptyWorld).2.trace ++
          [Event.getExternal host.Identifier false, Event.state host.name (hostInput "1.1.1.1"),
           Event.invoke (hostContext .Upsert crdInterface).handlerDef.name "read"
             [some (.str (Value.str "H1").ToString)]] ∧
      (host.Run (hostContext .Upsert crdInterface) (hostInput "1.1.1.1")
          (host.Run (hostContext .Upsert crdInterface) (hostInput "1.1.1.1")
            emptyWorld).2).2.identity
        = (host.Run (hostContext .Upsert crdInterface) (hostInput "1.1.1.1")
            emptyWorld).2.identity :=
  upsert_twice_converges host (hostContext .Upsert crdInterface) (hostInput "1.1.1.1")
    emptyWorld (hostDesired "1.1.1.1") (hostStored "1.1.1.1" "H1") (.str "H1") []
    (0, []) (1, [("H1", hostStored "1.1.1.1" "H1")]) (1, [("H1", hostStored "1.1.1.1" "H1")])
    (1, [("H1", hostStored "1.1.1.1" "H1")]) rfl rfl rfl rfl rfl rfl rfl rfl (by decide)

/-- C4: a resource without a declared external id whose identifier has no identity record.
Under Upsert, when `State(name, input)` yields `d` and the handler's `create(d)` returns the
list `[obj, ext, ..]` with `obj` an instance of the resource type, `Run` performs exactly:
the identity lookup, the `State` call, one handler invocation `create(d)` (no `read`, `update`
or `delete`), and then `associate(r.Identifier(), ext)`. The identity store then maps the
identifier to `ext`, and the result is the projection of `obj`. -/
theorem upsert_unrecorded_creates {σ : Type} (r : resource) (c : Context σ) (input : Value)
    (w : World σ) (d obj ext : Value) (rest : List Value) (s1 s2 : σ)
    (hext : r.extId = none) (hop : c.operation = Operation.Upsert)
    (hrec : w.identity.lookup r.Identifier = none)
    (hstate : c.state w.services r.name input = (.ok d, s1))
    (hcreate : c.invoke s1 c.handlerDef.name "create" [some d]
      = (.ok (.array (obj :: ext :: rest)), s2))
    (hinst : r.typ.IsInstance obj = true) :
    (r.Run c input w).2.trace = w.trace ++
        [Event.getExternal r.Identifier false, Event.state r.name input,
         Event.invoke c.handlerDef.name "create" [some d],
         Event.associate r.Identifier ext.ToString] ∧
      (r.Run c input w).2.identity.lookup r.Identifier = some ext.ToString ∧
      (r.Run c input w).1 = r.project obj := by
  rw [Run_upsert_unrecorded r c input w d obj ext rest s1 s2 hext hop hrec hstate hcreate hinst]
  simp

/-- C4 at the scenario "create then noop": the first Upsert of `host` on an empty identity
store. -/
theorem upsert_unrecorded_creates_witness :
    (host.Run (hostContext .Upsert crdInterface) (hostInput "1.1.1.1") emptyWorld).2.trace =
        emptyWorld.trace ++
          [Event.getExternal host.Identifier false, Event.state host.name (hostInput "1.1.1.1"),
           Event.invoke (hostContext .Upsert crdInterface).handlerDef.name "create"
             [some (hostDesired "1.1.1.1")],
           Event.associate host.Identifier (Value.str "H1").ToString] ∧
      (host.Run (hostContext .Upsert crdInterface) (hostInput "1.1.1.1")
        emptyWorld).2.identity.lookup host.Identifier = some (Value.str "H1").ToString ∧
      (host.Run (hostContext .Upsert crdInterface) (hostInput "1.1.1.1") emptyWorld).1 =
        host.project (hostStored "1.1.1.1" "H1") :=
  upsert_unrecorded_creates host (hostContext .Upsert crdInterface) (hostInput "1.1.1.1")
    emptyWorld (hostDesired "1.1.1.1") (hostStored "1.1.1.1" "H1") (.str "H1") []
    (0, []) (1, [("H1", hostStored "1.1.1.1" "H1")]) rfl rfl rfl rfl rfl rfl

/-- C5: the delete and create fallback. Under Upsert, for a resource without a declared
external id whose recorded external id is `s`, when an update is needed and the handler
interface has no member `update`, the effects after the identity lookup and the `State` call
are, in this order: `read(s)`, `delete(s)`, `removeExternal(s)`, `create(d)`,
`associate(r.Identifier(), ext)` with `ext` the second element of what `create` returned;
`update` is not invoked. Afterwards the identity store maps the identifier to `ext`, and the
only record that may still carry the old id `s` is that new one; the result is the projection
of the created object. -/
theorem upsert_fallback_deletes_then_creates {σ : Type} (r : resource) (c : Context σ)
    (input : Value) (w : World σ) (s : String) (d cur x obj ext : Value) (rest : List Value)
    (s1 s2 s3 s4 : σ)
    (hext : r.extId = none) (hop : c.operation = Operation.Upsert)
    (hrec : w.identity.lookup r.Identifier = some s)
    (hstate : c.state w.services r.name input = (.ok d, s1))
    (hread : c.invoke s1 c.handlerDef.name "read" [some (.str s)] = (.ok cur, s2))
    (hcur : r.typ.IsInstance cur = true)
    (hneeded : updateNeeded r.typ d cur = .ok true)
    (hmember : c.handlerDef.interface.Member "update" = false)
    (hdelete : c.invoke s2 c.handlerDef.name "delete" [some (.str s)] = (.ok x, s3))
    (hcreate : c.invoke s3 c.handlerDef.name "create" [some d]
      = (.ok (.array (obj :: ext :: rest)), s4))
    (hobj : r.typ.IsInstance obj = true) :
    (r.Run c input w).2.trace = w.trace ++
        [Event.getExternal r.Identifier false, Event.state r.name input,
         Event.invoke c.handlerDef.name "read" [some (.str s)],
         Event.invoke c.handlerDef.name "delete" [some (.str s)],
         Event.removeExternal s,
         Event.invoke c.handlerDef.name "create" [some d],
         Event.associate r.Identifier ext.ToString] ∧
      (r.Run c input w).2.identity.lookup r.Identifier = some ext.ToString ∧
      (∀ p ∈ (r.Run c input w).2.identity, p.2 = s → p = (r.Identifier, ext.ToString)) ∧
      (r.Run c input w).1 = r.project obj := by
  have hpo := asPuppetObject_of_isInstance r.typ obj hobj
  rw [Run_upsert_recorded r c input w s d cur s1 s2 hext hop hrec hstate hread hcur, hneeded]
  simp only [hmember, Bool.false_eq_true, if_false]
  simp [resource.create, Eff.bind, pure, Invoke, associate, removeExternal, hdelete, hcreate,
    Eff.lift, asList, At, AssertInstance, hobj, hpo, bind, Except.bind]
  intro a b _ _ _ hne heq
  exact absurd heq hne

/-- C5 at the scenario "update via delete fallback": `host` recorded as `H1` with ip
`1.1.1.1`, desired ip `2.2.2.2`, handler interface without `update`. -/
theorem upsert_fallback_deletes_then_creates_witness :
    (host.Run (hostContext .Upsert crdInterface) (hostInput "2.2.2.2") createdWorld).2.trace =
        createdWorld.trace ++
          [Event.getExternal host.Identifier false, Event.state host.name (hostInput "2.2.2.2"),
           Event.invoke (hostContext .Upsert crdInterface).handlerDef.name "read"
             [some (.str "H1")],
           Event.invoke (hostContext .Upsert crdInterface).handlerDef.name "delete"
             [some (.str "H1")],
           Event.removeExternal "H1",
           Event.invoke (hostContext .Upsert crdInterface).handlerDef.name "create"
             [some (hostDesired "2.2.2.2")],
           Event.associate host.Identifier (Value.str "H2").ToString] ∧
      (host.Run (hostContext .Upsert crdInterface) (hostInput "2.2.2.2")
        createdWorld).2.identity.lookup host.Identifier = some (Value.str "H2").ToString ∧
      (∀ p ∈ (host.Run (hostContext .Upsert crdInterface) (hostInput "2.2.2.2")
        createdWorld).2.identity, p.2 = "H1" → p = (host.Identifier, (Value.str "H2").ToString)) ∧
      (host.Run (hostContext .Upsert crdInterface) (hostInput "2.2.2.2") createdWorld).1 =
        host.project (hostStored "2.2.2.2" "H2") :=
  upsert_fallback_deletes_then_creates host (hostContext .Upsert crdInterface)
    (hostInput "2.2.2.2") createdWorld "H1" (hostDesired "2.2.2.2") (hostStored "1.1.1.1" "H1")
    .undef (hostStored "2.2.2.2" "H2") (.str "H2") []
    (1, [("H1", hostStored "1.1.1.1" "H1")]) (1, [("H1", hostStored "1.1.1.1" "H1")])
    (1, []) (2, [("H2", hostStored "2.2.2.2" "H2")])
    rfl rfl rfl rfl rfl rfl rfl rfl rfl rfl rfl

/-- C6: the update path. Under Upsert, for a resource without a declared external id whose
recorded external id is `s`, when an update is needed and the handler interface declares a
member `update`, the handler is invoked with exactly `read(s)` followed by `update(s, d)`:
no `delete`, no `create`; the identity store is not modified, and the result is the
projection of what `update` returned. -/
theorem upsert_update_member_updates {σ : Type} (r : resource) (c : Context σ)
    (input : Value) (w : World σ) (s : String) (d cur u : Value) (s1 s2 s3 : σ)
    (hext : r.extId = none) (hop : c.operation = Operation.Upsert)
    (hrec : w.identity.lookup r.Identifier = some s)
    (hstate : c.state w.services r.name input = (.ok d, s1))
    (hread : c.invoke s1 c.handlerDef.name "read" [some (.str s)] = (.ok cur, s2))
    (hcur : r.typ.IsInstance cur = true)
    (hneeded : updateNeeded r.typ d cur = .ok true)
    (hmember : c.handlerDef.interface.Member "update" = true)
    (hupdate : c.invoke s2 c.handlerDef.name "update" [some (.str s), some d] = (.ok u, s3))
    (hu : r.typ.IsInstance u = true) :
    (r.Run c input w).2.trace = w.trace ++
        [Event.getExternal r.Identifier false, Event.state r.name input,
         Event.invoke c.handlerDef.name "read" [some (.str s)],
         Event.invoke c.handlerDef.name "update" [some (.str s), some d]] ∧
      (r.Run c input w).2.identity = w.identity ∧
      (r.Run c input w).1 = r.project u := by
  have hpo := asPuppetObject_of_isInstance r.typ u hu
  rw [Run_upsert_recorded r c input w s d cur s1 s2 hext hop hrec hstate hread hcur, hneeded]
  simp [hmember, Eff.bind, Invoke, hupdate, Eff.lift, AssertInstance, hu, hpo, bind,
    Except.bind]

/-- C6 at the sample handler with an interface that declares `update`: `host` recorded as
`H1` with ip `1.1.1.1`, desired ip `2.2.2.2`. -/
theorem upsert_update_member_updates_witness :
    (host.Run (hostContext .Upsert crudInterface) (hostInput "2.2.2.2") createdWorld).2.trace =
        createdWorld.trace ++
          [Event.getExternal host.Identifier false, Event.state host.name (hostInput "2.2.2.2"),
           Event.invoke (hostContext .Upsert crudInterface).handlerDef.name "read"
             [some (.str "H1")],
           Event.invoke (hostContext .Upsert crudInterface).handlerDef.name "update"
             [some (.str "H1"), some (hostDesired "2.2.2.2")]] ∧
      (host.Run (hostContext .Upsert crudInterface) (hostInput "2.2.2.2")
        createdWorld).2.identity = createdWorld.identity ∧
      (host.Run (hostContext .Upsert crudInterface) (hostInput "2.2.2.2") createdWorld).1 =
        host.project (hostStored "2.2.2.2" "H1") :=
  upsert_update_member_updates host (hostContext .Upsert crudInterface)
    (hostInput "2.2.2.2") createdWorld "H1" (hostDesired "2.2.2.2") (hostStored "1.1.1.1" "H1")
    (hostStored "2.2.2.2" "H1")
    (1, [("H1", hostStored "1.1.1.1" "H1")]) (1, [("H1", hostStored "1.1.1.1" "H1")])
    (1, [("H1", hostStored "2.2.2.2" "H1")])
    rfl rfl rfl rfl rfl rfl rfl rfl rfl rfl

/-- C7: for a resource declared with an explicit external id, `Run` under Delete returns the
empty map and leaves the world as it was: no handler method is invoked (in particular not
`delete`), and the identity store is neither read nor modified. -/
theorem delete_explicit_is_noop {σ : Type} (r : resource) (c : Context σ) (input : Value)
    (w : World σ) (e : Value) (hext : r.extId = some e)
    (hop : c.operation = Operation.Delete) :
    r.Run c input w = (.ok EMPTY_MAP, w) := by
  simp [resource.Run, hext, hop, Eff.bind, pure, bind]

/-- C7 at the resource `host` declared with `external_id: "E0"`, in a world that holds a
record and a host. -/
theorem delete_explicit_is_noop_witness :
    externalHost.Run (hostContext .Delete crdInterface) (hostInput "1.1.1.1") createdWorld
      = (.ok EMPTY_MAP, createdWorld) :=
  delete_explicit_is_noop externalHost (hostContext .Delete crdInterface) (hostInput "1.1.1.1")
    createdWorld (.str "E0") rfl rfl

/-- C8, as stated, fails: for `host`, declared without an external id and without an identity
record, `Run` under Delete does not return the empty map; the identity lookup, made with
`requireExists = true`, ends the run with `MissingIdentity`. -/
theorem delete_unrecorded_fails :
    host.extId = none ∧ emptyWorld.identity.lookup host.Identifier = none ∧
      (host.Run (hostContext .Delete crdInterface) (hostInput "1.1.1.1") emptyWorld).1
        = .error (.missingIdentity host.Identifier) ∧
      (host.Run (hostContext .Delete crdInterface) (hostInput "1.1.1.1") emptyWorld).1
        ≠ .ok EMPTY_MAP := by
  refine ⟨rfl, rfl, rfl, ?_⟩
  intro h
  cases h

/-- C8, amended: for a resource without a declared external id, `Run` under Delete looks the
identifier up with `requireExists = true`. When an external id `s` is recorded and the
handler's `delete(s)` returns, the run invokes exactly `delete(s)`, then removes the identity
record of `s`, and returns the empty map. When no external id is recorded, the run invokes no
handler method and fails with `MissingIdentity` instead of returning a map. -/
theorem delete_implicit_requires_record {σ : Type} (r : resource) (c : Context σ)
    (input : Value) (w : World σ) (hext : r.extId = none)
    (hop : c.operation = Operation.Delete) :
    (∀ (s : String) (x : Value) (s1 : σ), w.identity.lookup r.Identifier = some s →
      c.invoke w.services c.handlerDef.name "delete" [some (.str s)] = (.ok x, s1) →
      r.Run c input w = (.ok EMPTY_MAP,
        { identity := w.identity.filter (fun p => p.2 != s), services := s1,
          trace := w.trace ++
            [Event.getExternal r.Identifier true,
             Event.invoke c.handlerDef.name "delete" [some (.str s)],
             Event.removeExternal s] })) ∧
    (w.identity.lookup r.Identifier = none →
      r.Run c input w = (.error (.missingIdentity r.Identifier),
        { w with trace := w.trace ++ [Event.getExternal r.Identifier true] })) := by
  constructor
  · intro s x s1 hrec hdelete
    simp [resource.Run, hext, hop, Eff.bind, pure, bind, getExternal, hrec, Invoke, hdelete,
      removeExternal, WrapString, Value.ToString]
  · intro hrec
    simp [resource.Run, hext, hop, Eff.bind, pure, bind, getExternal, hrec]

/-- C8, amended, at `host`: with the record `H1` the host is deleted and the record removed;
without a record the run fails. -/
theorem delete_implicit_requires_record_witness :
    host.Run (hostContext .Delete crdInterface) (hostInput "1.1.1.1") createdWorld
        = (.ok EMPTY_MAP,
          { identity := createdWorld.identity.filter (fun p => p.2 != "H1"), services := (1, []),
            trace := createdWorld.trace ++
              [Event.getExternal host.Identifier true,
               Event.invoke (hostContext .Delete crdInterface).handlerDef.name "delete"
                 [some (.str "H1")],
               Event.removeExternal "H1"] }) ∧
      host.Run (hostContext .Delete crdInterface) (hostInput "1.1.1.1") emptyWorld
        = (.error (.missingIdentity host.Identifier),
          { emptyWorld with
            trace := emptyWorld.trace ++ [Event.getExternal host.Identifier true] }) :=
  ⟨(delete_implicit_requires_record host (hostContext .Delete crdInterface)
      (hostInput "1.1.1.1") createdWorld rfl rfl).1 "H1" .undef (1, []) rfl rfl,
   (delete_implicit_requires_record host (hostContext .Delete crdInterface)
      (hostInput "1.1.1.1") emptyWorld rfl rfl).2 rfl⟩

/-- C9, as stated, fails: for `host`, with no external id declared and none recorded, `Run`
under Read does not return the empty map; the identity lookup, made with
`requireExists = true`, ends the run with `MissingIdentity`. -/
theorem read_unrecorded_fails :
    host.extId = none ∧ emptyWorld.identity.lookup host.Identifier = none ∧
      (host.Run (hostContext .Read crdInterface) (hostInput "1.1.1.1") emptyWorld).1
        = .error (.missingIdentity host.Identifier) ∧
      (host.Run (hostContext .Read crdInterface) (hostInput "1.1.1.1") emptyWorld).1
        ≠ .ok EMPTY_MAP := by
  refine ⟨rfl, rfl, rfl, ?_⟩
  intro h
  cases h

/-- C9, amended: `Run` under Read. When no external id is available (none declared and none
recorded), the run invokes no handler method and fails with `MissingIdentity`. Otherwise,
with `e` the declared external id, or else the recorded one, the run invokes exactly
`read(e)`; when the handler returns `v`, the run requires `v` to be an instance of the
resource type (failing otherwise) and returns the projection of `v` onto `Output()`. -/
theorem read_reads_available_id {σ : Type} (r : resource) (c : Context σ) (input : Value)
    (w : World σ) (hop : c.operation = Operation.Read) :
    (r.extId = none → w.identity.lookup r.Identifier = none →
      r.Run c input w = (.error (.missingIdentity r.Identifier),
        { w with trace := w.trace ++ [Event.getExternal r.Identifier true] })) ∧
    (∀ (e v : Value) (s1 : σ), r.extId = some e →
      c.invoke w.services c.handlerDef.name "read" [some e] = (.ok v, s1) →
      r.Run c input w =
        (if r.typ.IsInstance v then r.project v else .error .typeMismatch,
          { w with services := s1,
                   trace := w.trace ++ [Event.invoke c.handlerDef.name "read" [some e]] })) ∧
    (∀ (s : String) (v : Value) (s1 : σ), r.extId = none →
      w.identity.lookup r.Identifier = some s →
      c.invoke w.services c.handlerDef.name "read" [some (.str s)] = (.ok v, s1) →
      r.Run c input w =
        (if r.typ.IsInstance v then r.project v else .error .typeMismatch,
          { w with services := s1,
                   trace := w.trace ++
                     [Event.getExternal r.Identifier true,
                      Event.invoke c.handlerDef.name "read" [some (.str s)]] })) := by
  refine ⟨?_, ?_, ?_⟩
  · intro hext hrec
    simp [resource.Run, hext, hop, Eff.bind, pure, bind, getExternal, hrec]
  · intro e v s1 hext hread
    by_cases hi : r.typ.IsInstance v = true
    · have hpo := asPuppetObject_of_isInstance r.typ v hi
      simp [resource.Run, hext, hop, Eff.bind, pure, bind, Invoke, hread, Eff.lift,
        AssertInstance, hi, hpo, Except.bind]
    · simp [resource.Run, hext, hop, Eff.bind, pure, bind, Invoke, hread, Eff.lift,
        AssertInstance, hi, Except.bind]
  · intro s v s1 hext hrec hread
    by_cases hi : r.typ.IsInstance v = true
    · have hpo := asPuppetObject_of_isInstance r.typ v hi
      simp [resource.Run, hext, hop, Eff.bind, pure, bind, getExternal, hrec, Invoke, hread,
        Eff.lift, AssertInstance, hi, hpo, Except.bind, WrapString]
    · simp [resource.Run, hext, hop, Eff.bind, pure, bind, getExternal, hrec, Invoke, hread,
        Eff.lift, AssertInstance, hi, Except.bind, WrapString]

/-- C9, amended, at `host`: without a record the run fails, with the record `H1` it reads
the host and projects it. -/
theorem read_reads_available_id_witness :
    host.Run (hostContext .Read crdInterface) (hostInput "1.1.1.1") emptyWorld
        = (.error (.missingIdentity host.Identifier),
          { emptyWorld with
            trace := emptyWorld.trace ++ [Event.getExternal host.Identifier true] }) ∧
      host.Run (hostContext .Read crdInterface) (hostInput "1.1.1.1") createdWorld
        = (if host.typ.IsInstance (hostStored "1.1.1.1" "H1")
            then host.project (hostStored "1.1.1.1" "H1") else .error .typeMismatch,
          { createdWorld with
            services := (1, [("H1", hostStored "1.1.1.1" "H1")]),
            trace := createdWorld.trace ++
              [Event.getExternal host.Identifier true,
               Event.invoke (hostContext .Read crdInterface).handlerDef.name "read"
                 [some (.str "H1")]] }) :=
  ⟨(read_reads_available_id host (hostContext .Read crdInterface) (hostInput "1.1.1.1")
      emptyWorld rfl).1 rfl rfl,
   (read_reads_available_id host (hostContext .Read crdInterface) (hostInput "1.1.1.1")
      createdWorld rfl).2.2 "H1" (hostStored "1.1.1.1" "H1")
      (1, [("H1", hostStored "1.1.1.1" "H1")]) rfl rfl rfl⟩

/-- C10, as stated, fails: the reference of the scenario declares the input parameter `user`
with the string value `u`; for the caller input `{u: "alice"}` the inner activity does not see
`{user: "alice"}`: `mapInput` leaves the key `u`, which names no parameter, as it is. -/
theorem mapInput_keeps_alias_key :
    aliasReference.Input = [⟨"user", some (.str "u")⟩] ∧
      aliasReference.mapInput [(.str "u", .str "alice")] = [(.str "u", .str "alice")] ∧
      aliasReference.mapInput [(.str "u", .str "alice")] ≠ [(.str "user", .str "alice")] := by
  decide

/-- C10, amended: `mapInput` rewrites in the direction from the parameter's name to its string
value. For a reference whose effective input declares `p` (the first parameter of that name)
with the string value `a`, every entry of the input map whose key reads `p.name` is rewritten,
in place, to the key `a` with the same value, and the inner activity's `Run` receives the
mapped input. -/
theorem mapInput_rewrites_name_to_alias (r : reference) (p : Parameter) (a : String)
    (input : OrderedMap) (i : Nat) (k v : Value)
    (hp : r.Input.find? (fun q => q.name == p.name) = some p)
    (ha : p.value = some (.str a))
    (hk : k.ToString = p.name)
    (hi : input.get? i = some (k, v)) :
    (r.mapInput input).get? i = some (.str a, v) ∧
      (r.mapInput input).length = input.length ∧
      r.Run input = (match r.ra.Run (r.mapInput input) with
        | .ok output => .ok (r.mapOutput output)
        | .error err => .error err) := by
  have hne : (r.Input.length == 0) = false := by
    cases hl : r.Input with
    | nil => rw [hl] at hp; simp at hp
    | cons q qs => simp
  refine ⟨?_, ?_, rfl⟩
  · simp only [reference.mapInput, hne, Bool.false_eq_true, if_false, MapEntries,
      List.get?_eq_getElem?, List.getElem?_map]
    rw [List.get?_eq_getElem?] at hi
    rw [hi]
    simp [mapInputLoop_eq_find, hk, hp, ha, WrapHashEntry]
  · simp [reference.mapInput, hne, MapEntries]

/-- C10, amended, at the scenario's reference: the caller input `{user: "alice"}` reaches the
inner activity as `{u: "alice"}`. -/
theorem mapInput_rewrites_name_to_alias_witness :
    (aliasReference.mapInput [(.str "user", .str "alice")]).get? 0
        = some (.str "u", .str "alice") ∧
      (aliasReference.mapInput [(.str "user", .str "alice")]).length
        = [(Value.str "user", Value.str "alice")].length ∧
      aliasReference.Run [(.str "user", .str "alice")]
        = (match aliasReference.ra.Run (aliasReference.mapInput [(.str "user", .str "alice")])
            with
          | .ok output => .ok (aliasReference.mapOutput output)
          | .error err => .error err) :=
  mapInput_rewrites_name_to_alias aliasReference ⟨"user", some (.str "u")⟩ "u"
    [(.str "user", .str "alice")] 0 (.str "user") (.str "alice") rfl rfl rfl rfl

/-- C11, as stated, fails: the reference of the scenario declares the output parameter `token`
with the string value `t`; the inner result `{token: "xyz"}` is not rewritten to `{t: "xyz"}`:
`mapOutput` leaves the key `token`, which is no parameter's string value, as it is, and the
caller of `Run` observes `{token: "xyz"}`. -/
theorem mapOutput_keeps_name_key :
    aliasReference.Output = [⟨"token", some (.str "t")⟩] ∧
      aliasReference.mapOutput [(.str "token", .str "xyz")] = [(.str "token", .str "xyz")] ∧
      aliasReference.mapOutput [(.str "token", .str "xyz")] ≠ [(.str "t", .str "xyz")] ∧
      aliasReference.Run [(.str "u", .str "alice")] = .ok [(.str "token", .str "xyz")] := by
  refine ⟨by decide, by decide, by decide, rfl⟩

/-- C11, amended: `mapOutput` rewrites in the direction from the parameter's string value to
its name. For a reference whose effective output declares `p` with the string value `a` (`p`
being the first parameter with that value), every entry of the inner activity's result whose
key is `a` is rewritten, in place, to the key `p.name` with the same value, and the caller of
`Run` observes the mapped result. -/
theorem mapOutput_rewrites_alias_to_name (r : reference) (p : Parameter) (a : String)
    (input output : OrderedMap) (i : Nat) (v : Value)
    (hp : r.Output.find? (fun q => decide (q.value = some (.str a))) = some p)
    (hi : output.get? i = some (.str a, v))
    (hrun : r.ra.Run (r.mapInput input) = .ok output) :
    (r.mapOutput output).get? i = some (.str p.name, v) ∧
      (r.mapOutput output).length = output.length ∧
      r.Run input = .ok (r.mapOutput output) := by
  have hne : (r.Output.length == 0) = false := by
    cases hl : r.Output with
    | nil => rw [hl] at hp; simp at hp
    | cons q qs => simp
  refine ⟨?_, ?_, ?_⟩
  · simp only [reference.mapOutput, hne, Bool.false_eq_true, if_false, MapEntries,
      List.get?_eq_getElem?, List.getElem?_map]
    rw [List.get?_eq_getElem?] at hi
    rw [hi]
    simp [mapOutputLoop_eq_find, hp, WrapHashEntry2]
  · simp [reference.mapOutput, hne, MapEntries]
  · simp [reference.Run, hrun]

/-- C11, amended, at the scenario's reference: an inner result `{t: "xyz"}` is observed by the
caller as `{token: "xyz"}`. -/
theorem mapOutput_rewrites_alias_to_name_witness :
    ({ aliasReference with
        ra := { inner with Run := fun _ => .ok [(.str "t", .str "xyz")] } } : reference).Run
      [(.str "user", .str "alice")] = .ok [(.str "token", .str "xyz")] :=
  (mapOutput_rewrites_alias_to_name
    { aliasReference with ra := { inner with Run := fun _ => .ok [(.str "t", .str "xyz")] } }
    ⟨"token", some (.str "t")⟩ "t" [(.str "user", .str "alice")] [(.str "t", .str "xyz")] 0
    (.str "xyz") rfl rfl rfl).2.2

/-- C12: `Input()` of a reference is its own declared input when that list is not empty, and
otherwise the inner activity's `Input()`, asked when `Input()` is called: when the inner
activity is itself a reference, it is that reference's `Input()`. `Output()` follows the same
rule with the declared output and the inner activity's `Output()`. -/
theorem reference_input_output_delegate (r : reference) :
    (r.input ≠ [] → r.Input = r.input) ∧
      (r.input = [] → r.Input = r.ra.Input) ∧
      (∀ r2 : reference, r.ra = r2.asActivity → r.input = [] → r.Input = r2.Input) ∧
      (r.output ≠ [] → r.Output = r.output) ∧
      (r.output = [] → r.Output = r.ra.Output) ∧
      (∀ r2 : reference, r.ra = r2.asActivity → r.output = [] → r.Output = r2.Output) := by
  refine ⟨?_, ?_, ?_, ?_, ?_, ?_⟩
  · intro h
    cases hl : r.input with
    | nil => exact absurd hl h
    | cons q qs => simp [reference.Input, hl]
  · intro h
    simp [reference.Input, h]
  · intro r2 hra h
    simp [reference.Input, h, hra, reference.asActivity]
  · intro h
    cases hl : r.output with
    | nil => exact absurd hl h
    | cons q qs => simp [reference.Output, hl]
  · intro h
    simp [reference.Output, h]
  · intro r2 hra h
    simp [reference.Output, h, hra, reference.asActivity]

/-- C12 at the scenario's references: `aliasReference` reports its own declarations, and
`outerReference`, which declares nothing and wraps it, reports those same declarations. -/
theorem reference_input_output_delegate_witness :
    aliasReference.Input = [⟨"user", some (.str "u")⟩] ∧
      outerReference.Input = aliasReference.Input ∧
      aliasReference.Output = [⟨"token", some (.str "t")⟩] ∧
      outerReference.Output = aliasReference.Output :=
  ⟨(reference_input_output_delegate aliasReference).1 (by decide),
   (reference_input_output_delegate outerReference).2.2.1 aliasReference rfl rfl,
   (reference_input_output_delegate aliasReference).2.2.2.1 (by decide),
   (reference_input_output_delegate outerReference).2.2.2.2.2 aliasReference rfl rfl⟩

/-- C13: `When()` of a reference is the conjunction `And [outer, inner]` (outer first) when
both the reference's own condition and the inner activity's are present, the outer condition
when only it is present, the inner condition when only it is present, and nil when neither
is. -/
theorem reference_when_combines (r : reference) :
    (∀ o i, r.when = some o → r.ra.When = some i → r.When = some (And [o, i])) ∧
      (∀ o, r.when = some o → r.ra.When = none → r.When = some o) ∧
      (∀ i, r.when = none → r.ra.When = some i → r.When = some i) ∧
      (r.when = none → r.ra.When = none → r.When = none) := by
  refine ⟨?_, ?_, ?_, ?_⟩
  · intro o i ho hi
    simp [reference.When, ho, hi]
  · intro o ho hi
    simp [reference.When, ho, hi]
  · intro i ho hi
    simp [reference.When, ho, hi]
  · intro ho hi
    simp [reference.When, ho, hi]

/-- C13 at sample references: `enabled` outside and `ready` inside combine to
`And [enabled, ready]`; a reference without conditions on either side has none. -/
theorem reference_when_combines_witness :
    guardedReference.When = some (And [.Truthy "enabled", .Truthy "ready"]) ∧
      aliasReference.When = none :=
  ⟨(reference_when_combines guardedReference).1 (.Truthy "enabled") (.Truthy "ready") rfl rfl,
   (reference_when_combines aliasReference).2.2.2 rfl rfl⟩

/-- C17: the map that `Run` returns under Read and Upsert is the projection of the result
object `o` onto `Output()`. When `o` has every attribute that the output parameters name, the
map has exactly one entry per parameter, in declared order and keyed by the parameter's name;
its value is, for an array of names, the sub-map from each listed name, in order, to `o`'s
attribute of that name, for a string, `o`'s attribute named by that string, and otherwise
`o`'s attribute named like the parameter. When some attribute so named does not exist on `o`,
the projection fails with `NoSuchAttribute` for a missing name. This projection is what `Run`
returns, as on the Upsert of a resource with a declared external id whose `read` yields `o`. -/
theorem project_follows_output (r : resource) (o : Value) :
    ((∀ p ∈ r.output, ∀ n ∈ p.attributeNames, (o.Get n).isSome = true) →
      r.project o = .ok (.hash (r.output.map (fun p => (Value.str p.name, p.projected o))))) ∧
    ((∃ p ∈ r.output, ∃ n ∈ p.attributeNames, o.Get n = none) →
      ∃ n, o.Get n = none ∧ r.project o = .error (.noSuchAttribute n)) ∧
    (∀ (σ : Type) (c : Context σ) (input : Value) (w : World σ) (e : Value) (s1 : σ),
      c.operation = Operation.Upsert → r.extId = some e → asPuppetObject o = .ok o →
      c.invoke w.services c.handlerDef.name "read" [some e] = (.ok o, s1) →
      (r.Run c input w).1 = r.project o) := by
  refine ⟨?_, ?_, ?_⟩
  · intro h
    simp [resource.project, entries_ok r o r.output h, WrapHash]
  · intro h
    obtain ⟨n, hn, herr⟩ := entries_error r o r.output h
    exact ⟨n, hn, by simp [resource.project, herr]⟩
  · intro σ c input w e s1 hop hext hobj hread
    simp [resource.Run, hext, hop, Eff.bind, pure, bind, Invoke, hread, Eff.lift, hobj]

/-- C17 at a resource whose output has an array valued, a string valued and a plain
parameter: the stored host projects to `{address: {name, ip}, key: id, ip: ip}`, and a host
without `id` fails with `NoSuchAttribute`. -/
theorem project_follows_output_witness :
    projectingHost.project (hostStored "1.1.1.1" "H1")
        = .ok (.hash [(.str "address", .hash [(.str "name", .str "a"), (.str "ip", .str "1.1.1.1")]),
            (.str "key", .str "H1"), (.str "ip", .str "1.1.1.1")]) ∧
      (∃ n, (hostDesired "1.1.1.1").Get n = none ∧
        projectingHost.project (hostDesired "1.1.1.1") = .error (.noSuchAttribute n)) :=
  ⟨(project_follows_output projectingHost (hostStored "1.1.1.1" "H1")).1 (by decide),
   (project_follows_output projectingHost (hostDesired "1.1.1.1")).2.1
     ⟨⟨"key", some (.str "id")⟩, by decide, "id", by decide, rfl⟩⟩

/-- C18, as stated, fails: the action `greet` declares only the input `user`. Given
`{user: "alice", extra: "x"}`, `Run` hands `do` the key `extra` as well, and given the empty
map, which lacks `user`, `Run` invokes `do` all the same and does not fail. -/
theorem action_run_passes_undeclared_keys :
    greet.input = [⟨"user", none⟩] ∧
      (greet.Run echoService [(.str "user", .str "alice"), (.str "extra", .str "x")]).1
        = [⟨"greet", "do", [.hash [(.str "user", .str "alice"), (.str "extra", .str "x")]]⟩] ∧
      greet.Run echoService [] = ([⟨"greet", "do", [.hash []]⟩], .ok []) :=
  ⟨rfl, rfl, rfl⟩

/-- C18, amended: for every action, whatever input it declares, and every input map, `Run`
invokes `do` under the activity's name exactly once, with the input map as it was given: no
key is dropped and no declared key is required. -/
theorem action_run_passes_input_unchanged (s : action) (service : ServiceInvoke)
    (input : OrderedMap) :
    (s.Run service input).1 = [⟨s.name, "do", [.hash input]⟩] := by
  unfold action.Run
  cases hs : service s.name "do" [.hash input] with
  | error e => rfl
  | ok result => cases hr : asOrderedMap result <;> simp [hr]

/-- C19: for every action and every input, `Run` invokes the service's `do` exactly once,
under the activity's name; it returns the result, unchanged, if and only if the result is an
ordered map, and for every other result value it fails with the result's rendering and
returns no map. -/
theorem action_run_requires_ordered_map (s : action) (service : ServiceInvoke)
    (input : OrderedMap) (result : Value)
    (hdo : service s.name "do" [.hash input] = .ok result) :
    (s.Run service input).1 = [⟨s.name, "do", [.hash input]⟩] ∧
      (∀ m, (s.Run service input).2 = .ok m ↔ result = .hash m) ∧
      ((∀ m, result ≠ .hash m) →
        (s.Run service input).2 = .error (.badResponseShape result.ToString)) := by
  unfold action.Run
  rw [hdo]
  cases result <;> simp [asOrderedMap]

/-- C19 at the action `greet`: a map comes back unchanged, the string `done` makes `Run`
fail. -/
theorem action_run_requires_ordered_map_witness :
    (greet.Run echoService [(.str "user", .str "alice")]).2
        = .ok [(.str "user", .str "alice")] ∧
      (greet.Run stringService [(.str "user", .str "alice")]).2
        = .error (.badResponseShape (Value.str "done").ToString) :=
  ⟨((action_run_requires_ordered_map greet echoService [(.str "user", .str "alice")]
      (.hash [(.str "user", .str "alice")]) rfl).2.1 _).2 rfl,
   (action_run_requires_ordered_map greet stringService [(.str "user", .str "alice")]
      (.str "done") rfl).2.2 (fun m h => by cases h)⟩

/-- C14, as stated, fails: the inbound sequence `GENESIS_RESOURCE("Dep")`,
`INVOKE_ACTION({ok: true})` holds an `INVOKE_ACTION` message that is preceded only by a
`GENESIS_RESOURCE` message, yet `InvokeAction` returns no result: the value of the resource
message is not an ordered map, and the type assertion on it panics. -/
theorem invokeAction_panics_on_resource_without_map :
    (∃ pre final post,
        [(⟨1, .str "Dep"⟩ : Message Value), ⟨0, .hash [(.str "ok", .bool true)]⟩]
          = pre ++ final :: post ∧
        final.Id = sampleIds.InvokeActionId ∧
        ∀ m ∈ pre, m.Id = sampleIds.GenesisResourceId ∨
          (m.Id = sampleIds.GenesisNoticeId ∧ ∃ v, sampleCodec.FromData m.Value = .ok v)) ∧
      (plugin [⟨1, .str "Dep"⟩, ⟨0, .hash [(.str "ok", .bool true)]⟩]).openError = none ∧
      (InvokeAction sampleIds sampleCodec
          (plugin [⟨1, .str "Dep"⟩, ⟨0, .hash [(.str "ok", .bool true)]⟩]) (.str "args")
          sampleGenesis).1 = .error (.panicked .typeAssertion) := by
  refine ⟨⟨[⟨1, .str "Dep"⟩], ⟨0, .hash [(.str "ok", .bool true)]⟩, [], rfl, rfl, ?_⟩, rfl, rfl⟩
  intro m hm
  simp only [List.mem_singleton] at hm
  subst hm
  exact Or.inl rfl

/-- C14, amended: on a stream that opened, `InvokeAction` returns a result if and only if the
inbound sequence holds an `INVOKE_ACTION` message that is preceded only by answerable
callbacks: `GENESIS_RESOURCE` messages whose value is an ordered map and `GENESIS_NOTICE`
messages whose value can be decoded. The result is then the value of that first
`INVOKE_ACTION` message, the last thing done is closing the send side, and the messages read
are those callbacks and that message, none of the later ones. A sequence without an
`INVOKE_ACTION` message, in particular one that just ends, yields no result. -/
theorem invokeAction_result_iff_final_after_answerable {D : Type} (ids : MessageIds)
    (codec : DataCodec D) (client : ActorsClient D) (args : D) (genesis : Genesis)
    (hopen : client.openError = none) :
    ((∃ v, (InvokeAction ids codec client args genesis).1 = .ok v) ↔
      ∃ pre final post, client.inbound = pre ++ final :: post ∧
        final.Id = ids.InvokeActionId ∧ ∀ m ∈ pre, answerable ids codec m = true) ∧
    (∀ pre final post, client.inbound = pre ++ final :: post →
      final.Id = ids.InvokeActionId → (∀ m ∈ pre, answerable ids codec m = true) →
      (InvokeAction ids codec client args genesis).1 = .ok final.Value ∧
        (InvokeAction ids codec client args genesis).2.getLast? = some .closeSend ∧
        received (InvokeAction ids codec client args genesis).2 = pre ++ [final]) ∧
    ((∀ m ∈ client.inbound, m.Id ≠ ids.InvokeActionId) →
      ∃ e, (InvokeAction ids codec client args genesis).1 = .error e) := by
  have hfwd : ∀ pre final post, client.inbound = pre ++ final :: post →
      final.Id = ids.InvokeActionId → (∀ m ∈ pre, answerable ids codec m = true) →
      (InvokeAction ids codec client args genesis).1 = .ok final.Value ∧
        (InvokeAction ids codec client args genesis).2.getLast? = some .closeSend ∧
        received (InvokeAction ids codec client args genesis).2 = pre ++ [final] := by
    intro pre final post hin hid hall
    rw [InvokeAction_answered ids codec client args genesis pre post final hopen hin hid hall]
    refine ⟨rfl, ?_, ?_⟩
    · rw [← List.cons_append, List.getLast?_append]
      simp
    · simp only [received]
      rw [received_callbackEvents ids codec genesis client.sendFails _ pre 1 hall]
      simp [received]
  refine ⟨⟨?_, ?_⟩, hfwd, ?_⟩
  · rintro ⟨v, hv⟩
    simp only [InvokeAction, hopen] at hv
    obtain ⟨pre, final, post, hin, hid, _, hall⟩ :=
      recvLoop_ok_decomp ids codec genesis client.sendFails v client.inbound 1 hv
    exact ⟨pre, final, post, hin, hid, hall⟩
  · rintro ⟨pre, final, post, hin, hid, hall⟩
    exact ⟨final.Value, (hfwd pre final post hin hid hall).1⟩
  · intro h
    simp only [InvokeAction, hopen]
    exact recvLoop_no_final ids codec genesis client.sendFails client.inbound 1 h

/-- C14, amended, at the scenario "callback interleave": the result is the value of the final
response, and a stream that only carries the notice and then ends yields an error. -/
theorem invokeAction_result_iff_final_after_answerable_witness :
    ((InvokeAction sampleIds sampleCodec (plugin interleave) (.str "args") sampleGenesis).1
        = .ok (.hash [(.str "ok", .bool true)]) ∧
      (InvokeAction sampleIds sampleCodec (plugin interleave) (.str "args")
        sampleGenesis).2.getLast? = some .closeSend ∧
      received (InvokeAction sampleIds sampleCodec (plugin interleave) (.str "args")
        sampleGenesis).2
        = [⟨2, .str "starting"⟩, ⟨1, .hash [(.str "type", .str "Dep")]⟩] ++
          [⟨0, .hash [(.str "ok", .bool true)]⟩]) ∧
      (∃ e, (InvokeAction sampleIds sampleCodec (plugin [⟨2, .str "starting"⟩]) (.str "args")
        sampleGenesis).1 = .error e) :=
  ⟨(invokeAction_result_iff_final_after_answerable sampleIds sampleCodec (plugin interleave)
      (.str "args") sampleGenesis rfl).2.1
      [⟨2, .str "starting"⟩, ⟨1, .hash [(.str "type", .str "Dep")]⟩]
      ⟨0, .hash [(.str "ok", .bool true)]⟩ [] rfl rfl (by decide),
   (invokeAction_result_iff_final_after_answerable sampleIds sampleCodec
      (plugin [⟨2, .str "starting"⟩]) (.str "args") sampleGenesis rfl).2.2 (by decide)⟩

/-- C15, as stated, fails: in the scenario "callback interleave" with every `Send` failing,
the reply to the `GENESIS_RESOURCE` callback is not sent (its `Send` returns an error), so
that callback is not answered, and yet the final `INVOKE_ACTION` response is delivered. -/
theorem final_response_delivered_though_reply_not_sent :
    InvokeAction sampleIds sampleCodec { plugin interleave with sendFails := fun _ => true }
        (.str "args") sampleGenesis
      = (.ok (.hash [(.str "ok", .bool true)]),
          [.send ⟨0, .str "args"⟩ true,
           .recv ⟨2, .str "starting"⟩, .notice "starting",
           .recv ⟨1, .hash [(.str "type", .str "Dep")]⟩,
           .resource [(.str "type", .str "Dep")],
           .send ⟨1, .hash [(.str "id", .str "Dep-1")]⟩ true,
           .recv ⟨0, .hash [(.str "ok", .bool true)]⟩, .closeSend]) :=
  rfl

/-- C15, amended: on a stream that opened, callbacks are handled one at a time, in arrival
order, whatever the results of the sends. As long as the callbacks can be answered
(`GENESIS_RESOURCE` with an ordered map as value, `GENESIS_NOTICE` with a decodable value),
the events after the initial send are, callback by callback: for a `GENESIS_RESOURCE` message
its receipt, the call of `genesis.Resource` on its value and exactly one reply, carrying the
answer under the same id, handed to `Send`, whether or not that `Send` succeeds; for a
`GENESIS_NOTICE` message its receipt and the call of `genesis.Notice`, without a reply. Only
then is the next message read. A callback that cannot be answered ends the call right after
its receipt, without a result. The final `INVOKE_ACTION` response is delivered if and only
if every callback before it could be answered, whether or not the replies were sent. -/
theorem callbacks_handled_in_arrival_order {D : Type} (ids : MessageIds)
    (codec : DataCodec D) (client : ActorsClient D) (args : D) (genesis : Genesis)
    (hopen : client.openError = none) :
    (∀ pre rest, client.inbound = pre ++ rest → (∀ m ∈ pre, answerable ids codec m = true) →
      ∃ k, InvokeAction ids codec client args genesis =
        ((recvLoop ids codec genesis client.sendFails rest k).1,
          .send ⟨ids.InvokeActionId, args⟩ (client.sendFails 0) ::
            (callbackEvents ids codec genesis client.sendFails pre 1 ++
              (recvLoop ids codec genesis client.sendFails rest k).2))) ∧
    (∀ (m : Message D) (ms : List (Message D)) (n : Nat) (v : OrderedMap),
      m.Id = ids.GenesisResourceId → codec.FromPBData m.Value = .hash v →
      callbackEvents ids codec genesis client.sendFails (m :: ms) n =
        [.recv m, .resource v,
          .send ⟨m.Id, codec.ToPBData (genesis.Resource v)⟩ (client.sendFails n)] ++
          callbackEvents ids codec genesis client.sendFails ms (n + 1)) ∧
    (∀ (m : Message D) (ms : List (Message D)) (n : Nat) (v : GoValue),
      m.Id = ids.GenesisNoticeId → codec.FromData m.Value = .ok v →
      callbackEvents ids codec genesis client.sendFails (m :: ms) n =
        [.recv m, .notice v.ToString] ++
          callbackEvents ids codec genesis client.sendFails ms n) ∧
    (∀ pre m rest, client.inbound = pre ++ m :: rest →
      (∀ x ∈ pre, answerable ids codec x = true) →
      m.Id ≠ ids.InvokeActionId → answerable ids codec m = false →
      ∃ e, InvokeAction ids codec client args genesis =
        (.error e, .send ⟨ids.InvokeActionId, args⟩ (client.sendFails 0) ::
          (callbackEvents ids codec genesis client.sendFails pre 1 ++ [.recv m]))) ∧
    (∀ pre final post, client.inbound = pre ++ final :: post →
      final.Id = ids.InvokeActionId → (∀ m ∈ pre, m.Id ≠ ids.InvokeActionId) →
      ((InvokeAction ids codec client args genesis).1 = .ok final.Value ↔
        ∀ m ∈ pre, answerable ids codec m = true) ∧
      ((∀ m ∈ pre, answerable ids codec m = true) →
        (InvokeAction ids codec client args genesis).2 =
          .send ⟨ids.InvokeActionId, args⟩ (client.sendFails 0) ::
            (callbackEvents ids codec genesis client.sendFails pre 1 ++
              [.recv final, .closeSend]))) := by
  refine ⟨?_, ?_, ?_, ?_, ?_⟩
  · intro pre rest hin hall
    obtain ⟨k, hk⟩ := recvLoop_prefix ids codec genesis client.sendFails rest pre 1 hall
    exact ⟨k, by simp only [InvokeAction, hopen, hin, hk]⟩
  · intro m ms n v hid hv
    simp [callbackEvents, hid, hv]
  · intro m ms n v hid hv
    simp [callbackEvents, hid, hv, ids.notice_ne_resource]
  · intro pre m rest hin hall hne hno
    obtain ⟨k, hk⟩ :=
      recvLoop_prefix ids codec genesis client.sendFails (m :: rest) pre 1 hall
    obtain ⟨e, he⟩ := recvLoop_unanswerable ids codec genesis client.sendFails m rest k hne hno
    rw [he] at hk
    exact ⟨e, by simp only [InvokeAction, hopen, hin, hk]⟩
  · intro pre final post hin hfinal hpre
    have hrun := InvokeAction_answered ids codec client args genesis pre post final hopen hin
      hfinal
    refine ⟨⟨?_, fun hall => by rw [hrun hall]⟩, fun hall => by rw [hrun hall]⟩
    intro hok
    simp only [InvokeAction, hopen] at hok
    obtain ⟨pre2, final2, post2, hin2, hid2, _, hall2⟩ :=
      recvLoop_ok_decomp ids codec genesis client.sendFails final.Value client.inbound 1 hok
    have huniq := first_final_unique ids pre pre2 final final2 post post2
      (by rw [← hin, hin2]) hpre
      (fun m hm => answerable_ne_invokeAction ids codec m (hall2 m hm)) hfinal hid2
    rw [huniq.1]
    exact hall2

/-- C15, amended, at the scenario "callback interleave": the notice is logged, the resource
resolved and its answer handed to `Send` under `GENESIS_RESOURCE` before the final response
is read, with every `Send` failing as well; and a resource message without a map, first in
line, ends the call after its receipt. -/
theorem callbacks_handled_in_arrival_order_witness :
    ((InvokeAction sampleIds sampleCodec { plugin interleave with sendFails := fun _ => true }
          (.str "args") sampleGenesis).1 = .ok (.hash [(.str "ok", .bool true)]) ↔
        ∀ m ∈ [(⟨2, .str "starting"⟩ : Message Value), ⟨1, .hash [(.str "type", .str "Dep")]⟩],
          answerable sampleIds sampleCodec m = true) ∧
      (InvokeAction sampleIds sampleCodec { plugin interleave with sendFails := fun _ => true }
          (.str "args") sampleGenesis).2 =
        .send ⟨sampleIds.InvokeActionId, .str "args"⟩ true ::
          (callbackEvents sampleIds sampleCodec sampleGenesis (fun _ => true)
              [⟨2, .str "starting"⟩, ⟨1, .hash [(.str "type", .str "Dep")]⟩] 1 ++
            [.recv ⟨0, .hash [(.str "ok", .bool true)]⟩, .closeSend]) ∧
      (∃ e, InvokeAction sampleIds sampleCodec
          (plugin [⟨1, .str "Dep"⟩, ⟨0, .hash [(.str "ok", .bool true)]⟩]) (.str "args")
          sampleGenesis =
        (.error e, .send ⟨sampleIds.InvokeActionId, .str "args"⟩ false ::
          (callbackEvents sampleIds sampleCodec sampleGenesis (fun _ => false) [] 1 ++
            [.recv ⟨1, .str "Dep"⟩]))) :=
  ⟨((callbacks_handled_in_arrival_order sampleIds sampleCodec
      { plugin interleave with sendFails := fun _ => true } (.str "args") sampleGenesis
      rfl).2.2.2.2 [⟨2, .str "starting"⟩, ⟨1, .hash [(.str "type", .str "Dep")]⟩]
      ⟨0, .hash [(.str "ok", .bool true)]⟩ [] rfl rfl (by decide)).1,
   ((callbacks_handled_in_arrival_order sampleIds sampleCodec
      { plugin interleave with sendFails := fun _ => true } (.str "args") sampleGenesis
      rfl).2.2.2.2 [⟨2, .str "starting"⟩, ⟨1, .hash [(.str "type", .str "Dep")]⟩]
      ⟨0, .hash [(.str "ok", .bool true)]⟩ [] rfl rfl (by decide)).2 (by decide),
   (callbacks_handled_in_arrival_order sampleIds sampleCodec
      (plugin [⟨1, .str "Dep"⟩, ⟨0, .hash [(.str "ok", .bool true)]⟩]) (.str "args")
      sampleGenesis rfl).2.2.2.1 [] ⟨1, .str "Dep"⟩ [⟨0, .hash [(.str "ok", .bool true)]⟩]
      rfl (by decide) (by decide) (by decide)⟩

/-- C16: what the code does at a message with the id 42. `InvokeAction` returns the
unexpected-message-id error and no result, and reads no further message; but it returns
without closing the send side, which it does close before returning the final response. -/
theorem invokeAction_unexpected_id_returns_without_close :
    InvokeAction sampleIds sampleCodec
        (plugin [⟨42, .str "x"⟩, ⟨0, .hash [(.str "ok", .bool true)]⟩]) (.str "args")
        sampleGenesis
      = (.error (.returned (.unexpectedId 42)),
          [.send ⟨0, .str "args"⟩ false, .recv ⟨42, .str "x"⟩]) ∧
    InvokeAction sampleIds sampleCodec (plugin [⟨0, .hash [(.str "ok", .bool true)]⟩])
        (.str "args") sampleGenesis
      = (.ok (.hash [(.str "ok", .bool true)]),
          [.send ⟨0, .str "args"⟩ false, .recv ⟨0, .hash [(.str "ok", .bool true)]⟩,
           .closeSend]) :=
  ⟨rfl, rfl⟩

/-- C20: a failure of a send never produces the error of `InvokeAction`. Whatever sends fail,
the outcome (result or failure) is the one obtained when every send succeeds, and so are the
events, the results of the sends apart: the same messages are read and the same replies
handed to `Send`. In particular, on a stream that opened, the first inbound message is read
right after the initial send, failed or not. -/
theorem send_failures_leave_outcome_unchanged {D : Type} (ids : MessageIds)
    (codec : DataCodec D) (client : ActorsClient D) (args : D) (genesis : Genesis) :
    (InvokeAction ids codec client args genesis).1 =
        (InvokeAction ids codec { client with sendFails := fun _ => false } args genesis).1 ∧
      (InvokeAction ids codec client args genesis).2.map StreamEvent.withoutSendResult =
        (InvokeAction ids codec { client with sendFails := fun _ => false } args
          genesis).2.map StreamEvent.withoutSendResult ∧
      (client.openError = none → ∀ m rest, client.inbound = m :: rest →
        ∃ tl, (InvokeAction ids codec client args genesis).2 =
          .send ⟨ids.InvokeActionId, args⟩ (client.sendFails 0) :: .recv m :: tl) := by
  have h := recvLoop_sendFails_irrelevant ids codec genesis client.sendFails (fun _ => false)
    client.inbound 1 1
  refine ⟨?_, ?_, ?_⟩
  · cases ho : client.openError with
    | some e => simp [InvokeAction, ho]
    | none => simp [InvokeAction, ho, h.1]
  · cases ho : client.openError with
    | some e => simp [InvokeAction, ho]
    | none => simp [InvokeAction, ho, h.2, StreamEvent.withoutSendResult]
  · intro ho m rest hin
    simp only [InvokeAction, ho, hin]
    by_cases h1 : m.Id = ids.InvokeActionId
    · simp [recvLoop, h1]
    · by_cases h2 : m.Id = ids.GenesisResourceId
      · cases hv : asOrderedMap (codec.FromPBData m.Value) <;>
          simp [recvLoop, h2, hv, ids.resource_ne_invoke]
      · by_cases h3 : m.Id = ids.GenesisNoticeId
        · cases hv : codec.FromData m.Value <;>
            simp [recvLoop, h3, hv, ids.notice_ne_invoke, ids.notice_ne_resource]
        · simp [recvLoop, h1, h2, h3]

/-- C20 at the scenario "callback interleave" with every send failing: the result is
delivered all the same, after the same reads. -/
theorem send_failures_leave_outcome_unchanged_witness :
    (InvokeAction sampleIds sampleCodec { plugin interleave with sendFails := fun _ => true }
        (.str "args") sampleGenesis).1 = .ok (.hash [(.str "ok", .bool true)]) ∧
      (∃ tl, (InvokeAction sampleIds sampleCodec
          { plugin interleave with sendFails := fun _ => true } (.str "args") sampleGenesis).2 =
        .send ⟨sampleIds.InvokeActionId, .str "args"⟩ true :: .recv ⟨2, .str "starting"⟩ ::
          tl) :=
  ⟨(send_failures_leave_outcome_unchanged sampleIds sampleCodec
      { plugin interleave with sendFails := fun _ => true } (.str "args") sampleGenesis).1.trans
      rfl,
   (send_failures_leave_outcome_unchanged sampleIds sampleCodec
      { plugin interleave with sendFails := fun _ => true } (.str "args") sampleGenesis).2.2
      rfl ⟨2, .str "starting"⟩ _ rfl⟩

end Wfe
